import Mathlib

/-!
# Verification of the Portfolio Risk & Scenario Analytics Engine

Shallow embedding, in Lean 4, of the core computations of the
`portfolio_volatility` repository, together with theorems settling the
specification claims about them.

The embedding follows the Python source:

* `src/utils/crash_test_services.py` — `PortfolioService`
  (`calculate_portfolio_returns`, `_calculate_drifting_returns`,
  `_calculate_rebalanced_returns`, `_get_monthly_dates`,
  `_get_quarterly_dates`), `MetricsService` (`calculate_metrics`,
  `_calculate_max_drawdown`, `_calculate_worst_month`) and
  `CrashTestService` (`run_crash_test`, `_analyze_scenario`).
* `src/utils/risk_analysis/correlation_analyzer.py` —
  `_create_fallback_result`, `_calculate_concentration_metrics`.
* `src/utils/risk_analysis/risk_analyzer.py` —
  `_calculate_diversification_score`, `_calculate_asset_type_bonus`.
* `src/utils/enhanced_volatility_estimator.py` —
  `estimate_portfolio_volatility_enhanced` (volatility aggregation formulas).
* `src/utils/volatility_model_enhancer.py` —
  `predict_volatility_enhanced` (bounded ML multiplier).

Monetary/return values are modelled as exact rationals (`ℚ`); the only
places real numbers appear are the square roots of the volatility formulas
and the annualised-volatility / Sharpe fields of the metrics record, which
are modelled over `ℝ`.  Trading dates are modelled as a `TDate` structure
carrying a serial day number (the timestamp: ordering, business-day
arithmetic; serial ≡ 0 (mod 7) is a Monday, so a business day is a serial
with `serial % 7 < 5`), plus the calendar `month` (1–12) and `year` used by
the rebalance-date and monthly-resampling logic.  pandas `Series` become
date-keyed association lists, pandas dicts become key lists plus lookup
functions, as recorded at each definition.
-/

/-- A trading date: `serial` is the day number used for ordering and
business-day counting (`serial % 7 < 5` ⇔ weekday), `month`/`year` are the
calendar fields the Python code reads via `date.month` / resampling. -/
structure TDate where
  serial : ℕ
  month : ℕ
  year : ℕ
deriving DecidableEq, Repr

/-- An entry of the portfolio list: `{'ticker': ..., 'weight': ...}`. -/
structure Asset where
  ticker : String
  weight : ℚ
deriving DecidableEq, Repr

/-! ## PortfolioService: drifting and rebalanced portfolio returns

`aligned_returns` (a dict of ticker → Series, all reindexed to the common
dates) is modelled as the list `als` of its keys together with a total
function `R : String → TDate → ℚ` giving each ticker's (zero-filled)
return on each date.  The weight dict `current_weights` is modelled as the
list `wks` of its keys plus a value function `String → ℚ`; the key set
never changes, only the values, which matches the Python code (it only
ever writes to existing keys). -/

/-- One day's portfolio return:
`daily_return += current_weights[ticker] * returns[date]` summed over
`aligned_returns.items()` with the `if ticker in current_weights` guard. -/
def dayReturn (als wks : List String) (R : String → TDate → ℚ)
    (w : String → ℚ) (d : TDate) : ℚ :=
  (als.map (fun t => if t ∈ wks then w t * R t d else 0)).sum

/-- The drift update `current_weights[ticker] *= (1 + returns[date])`,
applied to every ticker of `aligned_returns` that is a key of the weight
dict. -/
def driftUpdate (als wks : List String) (R : String → TDate → ℚ)
    (w : String → ℚ) (d : TDate) : String → ℚ :=
  fun t => if t ∈ als ∧ t ∈ wks then w t * (1 + R t d) else w t

/-- Embeds `total_weight = sum(current_weights.values())`. -/
def totalWeight (wks : List String) (w : String → ℚ) : ℚ :=
  (wks.map w).sum

/-- The renormalisation step: divide every weight by the total, but only
when `total_weight > 0`. -/
def renormalize (wks : List String) (w : String → ℚ) : String → ℚ :=
  if 0 < totalWeight wks w then fun t => w t / totalWeight wks w else w

/-- Embeds `PortfolioService._calculate_drifting_returns`: day-by-day portfolio
returns with weight drift and daily renormalisation; the drift update is
skipped on the last date (`if i < len(dates) - 1`). -/
def driftingReturns (als wks : List String) (R : String → TDate → ℚ)
    (w : String → ℚ) : List TDate → List ℚ
  | [] => []
  | [d] => [dayReturn als wks R w d]
  | d :: d' :: rest =>
      dayReturn als wks R w d ::
        driftingReturns als wks R
          (renormalize wks (driftUpdate als wks R w d)) (d' :: rest)

/-- The shared helper behind `_get_monthly_dates` / `_get_quarterly_dates`:
collect each date whose key (month, resp. quarter) differs from the
running `current_month` / `current_quarter` value (initially `None`). -/
def firstDatesBy (key : TDate → ℕ) : List TDate → Option ℕ → List TDate
  | [], _ => []
  | d :: rest, cur =>
      if cur ≠ some (key d) then d :: firstDatesBy key rest (some (key d))
      else firstDatesBy key rest cur

/-- Embeds `PortfolioService._get_monthly_dates`: first trading day of each
month-number run. -/
def getMonthlyDates (dates : List TDate) : List TDate :=
  firstDatesBy (fun d => d.month) dates none

/-- Embeds `PortfolioService._get_quarterly_dates`: first trading day of each
quarter run, `quarter = (date.month - 1) // 3 + 1`. -/
def getQuarterlyDates (dates : List TDate) : List TDate :=
  firstDatesBy (fun d => (d.month - 1) / 3 + 1) dates none

/-- The rebalance-date set selected by `rebalance_freq`. -/
def rebalanceDates (dates : List TDate) (freq : String) : List TDate :=
  if freq = "monthly" then getMonthlyDates dates
  else if freq = "quarterly" then getQuarterlyDates dates
  else []

/-- The recursion of `PortfolioService._calculate_rebalanced_returns`
after the rebalance-date set has been computed: on a rebalance date the
weights are reset to `target` (note: *after* that day's return has been
computed); otherwise the drift update runs, skipped on the last date. -/
def rebalancedFrom (als wks : List String) (R : String → TDate → ℚ)
    (target : String → ℚ) (rdates : List TDate) :
    (String → ℚ) → List TDate → List ℚ
  | _, [] => []
  | w, [d] => [dayReturn als wks R w d]
  | w, d :: d' :: rest =>
      dayReturn als wks R w d ::
        rebalancedFrom als wks R target rdates
          (if d ∈ rdates then target
           else renormalize wks (driftUpdate als wks R w d)) (d' :: rest)

/-- Embeds `PortfolioService._calculate_rebalanced_returns`: weights start at a
copy of the targets, reset to the targets on each rebalance date. -/
def rebalancedReturns (als wks : List String) (R : String → TDate → ℚ)
    (target : String → ℚ) (dates : List TDate) (freq : String) : List ℚ :=
  rebalancedFrom als wks R target (rebalanceDates dates freq) target dates

/-! ## Lemmas about the weight-drift machinery -/

lemma dayReturn_smul (als wks : List String) (R : String → TDate → ℚ)
    (w : String → ℚ) (c : ℚ) (d : TDate) :
    dayReturn als wks R (fun t => c * w t) d = c * dayReturn als wks R w d := by
  induction als with
  | nil => simp [dayReturn]
  | cons a l ih =>
      simp only [dayReturn, List.map_cons, List.sum_cons] at ih ⊢
      rw [ih]; split <;> ring

lemma driftUpdate_smul (als wks : List String) (R : String → TDate → ℚ)
    (w : String → ℚ) (c : ℚ) (d : TDate) :
    driftUpdate als wks R (fun t => c * w t) d =
      fun t => c * driftUpdate als wks R w d t := by
  funext t; unfold driftUpdate; split <;> ring

lemma totalWeight_smul (wks : List String) (w : String → ℚ) (c : ℚ) :
    totalWeight wks (fun t => c * w t) = c * totalWeight wks w := by
  induction wks with
  | nil => simp [totalWeight]
  | cons a l ih =>
      simp only [totalWeight, List.map_cons, List.sum_cons] at ih ⊢
      rw [ih]; ring

lemma totalWeight_pos (wks : List String) (w : String → ℚ)
    (hne : wks ≠ []) (hw : ∀ t ∈ wks, 0 < w t) : 0 < totalWeight wks w := by
  apply List.sum_pos
  · intro x hx
    obtain ⟨t, ht, rfl⟩ := List.mem_map.mp hx
    exact hw t ht
  · simpa using hne

lemma renormalize_smul (wks : List String) (w : String → ℚ) (c : ℚ)
    (hc : 0 < c) (hT : 0 < totalWeight wks w) :
    renormalize wks (fun t => c * w t) = renormalize wks w := by
  unfold renormalize
  rw [totalWeight_smul, if_pos (mul_pos hc hT), if_pos hT]
  funext t
  exact mul_div_mul_left (w t) (totalWeight wks w) (ne_of_gt hc)

lemma driftUpdate_pos (als wks : List String) (R : String → TDate → ℚ)
    (w : String → ℚ) (d : TDate)
    (hw : ∀ t ∈ wks, 0 < w t) (hr : ∀ t d, -1 < R t d) :
    ∀ t ∈ wks, 0 < driftUpdate als wks R w d t := by
  intro t ht
  unfold driftUpdate
  split
  · exact mul_pos (hw t ht) (by linarith [hr t d])
  · exact hw t ht

/-- Claim C1 (counterexample). The drifting-returns computation does *not*
normalise the initial weights: with the single-asset basket
`{'A': 2}` and a `50%` return on the only date, the code produces a
`100%` portfolio return (`rawWeight × return`), while the same basket
scaled to `{'A': 1}` produces `50%`, so the series is not invariant under
a positive rescaling of the basket and the first day's return is not
`Σ(normalizedWeight_i × return_i)`. -/
theorem C1_counterexample :
    driftingReturns ["A"] ["A"] (fun _ _ => 1/2) (fun _ => 2) [⟨0, 1, 2020⟩]
      = [1] ∧
    driftingReturns ["A"] ["A"] (fun _ _ => 1/2) (fun _ => 1) [⟨0, 1, 2020⟩]
      = [1/2] ∧
    ([1] : List ℚ) ≠ [1/2] := by
  refine ⟨?_, ?_, by norm_num⟩ <;> simp [driftingReturns, dayReturn]

/-- Claim C1 (amended). The weight-drift computation starts from the *raw*
target weights: the first day's portfolio return is
`Σ(rawWeight_i × return_i)`, so it scales linearly with a positive
rescaling `c` of the basket; because the weight vector is renormalised at
the end of every day, all returns from the second day onward are
invariant under the rescaling (given positive weights and returns
greater than −100%, which keep the weight total positive). -/
theorem C1_amended (als wks : List String) (R : String → TDate → ℚ)
    (w : String → ℚ) (c : ℚ) (dates : List TDate)
    (hc : 0 < c) (hw : ∀ t ∈ wks, 0 < w t) (hr : ∀ t d, -1 < R t d)
    (hne : wks ≠ []) :
    (∀ d rest, dates = d :: rest →
      (driftingReturns als wks R w dates).head? =
        some (dayReturn als wks R w d)) ∧
    (driftingReturns als wks R (fun t => c * w t) dates).head? =
      (driftingReturns als wks R w dates).head?.map (fun x => c * x) ∧
    (driftingReturns als wks R (fun t => c * w t) dates).tail =
      (driftingReturns als wks R w dates).tail := by
  have hren : ∀ d : TDate,
      renormalize wks (driftUpdate als wks R (fun t => c * w t) d) =
        renormalize wks (driftUpdate als wks R w d) := by
    intro d
    rw [driftUpdate_smul]
    exact renormalize_smul wks _ c hc
      (totalWeight_pos wks _ hne (driftUpdate_pos als wks R w d hw hr))
  refine ⟨?_, ?_, ?_⟩
  · rintro d rest rfl
    cases rest <;> simp [driftingReturns]
  · match dates with
    | [] => simp [driftingReturns]
    | [d] => simp [driftingReturns, dayReturn_smul]
    | d :: d' :: rest => simp [driftingReturns, dayReturn_smul]
  · match dates with
    | [] => simp [driftingReturns]
    | [d] => simp [driftingReturns]
    | d :: d' :: rest => simp [driftingReturns, hren d]

/-- Witness for `C1_amended` at a concrete basket (two tickers at weight
`1/4` each, scale factor `2`, constant `10%` returns, two dates). -/
theorem C1_amended_witness :
    ((0 : ℚ) < 2 ∧ (∀ t ∈ ["A", "B"], (0 : ℚ) < (fun _ => (1:ℚ)/4) t) ∧
      (∀ (t : String) (d : TDate), (-1 : ℚ) < (fun _ _ => (1:ℚ)/10) t d) ∧
      (["A", "B"] : List String) ≠ []) ∧
    (driftingReturns ["A", "B"] ["A", "B"] (fun _ _ => 1/10)
        (fun t => 2 * (fun _ => (1:ℚ)/4) t) [⟨0, 1, 2020⟩, ⟨1, 1, 2020⟩]).tail =
      (driftingReturns ["A", "B"] ["A", "B"] (fun _ _ => 1/10)
        (fun _ => (1:ℚ)/4) [⟨0, 1, 2020⟩, ⟨1, 1, 2020⟩]).tail := by
  have h1 : (0 : ℚ) < 2 := by norm_num
  have h2 : ∀ t ∈ (["A", "B"] : List String), (0 : ℚ) < (fun _ => (1:ℚ)/4) t := by
    intro t _; norm_num
  have h3 : ∀ (t : String) (d : TDate), (-1 : ℚ) < (fun _ _ => (1:ℚ)/10) t d := by
    intro t d; norm_num
  have h4 : (["A", "B"] : List String) ≠ [] := by simp
  exact ⟨⟨h1, h2, h3, h4⟩,
    (C1_amended ["A", "B"] ["A", "B"] (fun _ _ => 1/10) (fun _ => (1:ℚ)/4) 2
      [⟨0, 1, 2020⟩, ⟨1, 1, 2020⟩] h1 h2 h3 h4).2.2⟩

/-- Claim C9 (counterexample). A single-asset basket whose (un-normalised)
weight is not `1.0` does *not* reproduce the asset's own return series:
with `{'A': 3}` and a single-date return of `1/3`, the drifting
computation yields `[1]` while the asset's series is `[1/3]`. -/
theorem C9_counterexample :
    driftingReturns ["A"] ["A"] (fun _ _ => 1/3) (fun _ => 3) [⟨7, 1, 2021⟩]
      = [1] ∧
    ([⟨7, 1, 2021⟩] : List TDate).map ((fun _ _ => (1:ℚ)/3) "A") = [1/3] ∧
    ([1] : List ℚ) ≠ [1/3] := by
  refine ⟨?_, by simp, by norm_num⟩
  simp [driftingReturns, dayReturn]

/-- Claim C9 (amended). For a single-asset basket whose weight is exactly
`1.0` and whose returns stay above −100%, the drift-policy portfolio
return series equals the asset's own return series date by date: the
weight is `1.0` on the first day and the daily renormalisation restores
it to `1.0` after every drift update. -/
theorem C9_amended (t : String) (R : String → TDate → ℚ) (w : String → ℚ)
    (dates : List TDate) (hw : w t = 1) (hr : ∀ d, -1 < R t d) :
    driftingReturns [t] [t] R w dates = dates.map (R t) := by
  induction dates generalizing w with
  | nil => rfl
  | cons d rest ih =>
      have hday : dayReturn [t] [t] R w d = R t d := by
        simp [dayReturn, hw]
      cases rest with
      | nil => simp [driftingReturns, hday]
      | cons d' rest' =>
          have hpos : (0:ℚ) < 1 + R t d := by linarith [hr d]
          have hupd : driftUpdate [t] [t] R w d t = 1 + R t d := by
            simp [driftUpdate, hw]
          have htot : totalWeight [t] (driftUpdate [t] [t] R w d) = 1 + R t d := by
            simp [totalWeight, hupd]
          have hren : renormalize [t] (driftUpdate [t] [t] R w d) t = 1 := by
            rw [renormalize, if_pos (htot ▸ hpos)]
            simp only [hupd, htot]
            exact div_self (ne_of_gt hpos)
          simp only [driftingReturns, hday, List.map_cons, List.cons.injEq,
            true_and]
          exact ih _ hren

/-- Witness for `C9_amended`: ticker `"A"`, weight function constantly
`1`, constant `5%` returns over two dates. -/
theorem C9_amended_witness :
    ((fun _ : String => (1:ℚ)) "A" = 1 ∧
      (∀ d : TDate, (-1 : ℚ) < (fun _ _ => (1:ℚ)/20) "A" d)) ∧
    driftingReturns ["A"] ["A"] (fun _ _ => 1/20) (fun _ => 1)
        [⟨0, 1, 2020⟩, ⟨1, 1, 2020⟩] =
      ([⟨0, 1, 2020⟩, ⟨1, 1, 2020⟩] : List TDate).map ((fun _ _ => (1:ℚ)/20) "A") := by
  have h1 : (fun _ : String => (1:ℚ)) "A" = 1 := rfl
  have h2 : ∀ d : TDate, (-1 : ℚ) < (fun _ _ => (1:ℚ)/20) "A" d := by
    intro d; norm_num
  exact ⟨⟨h1, h2⟩, C9_amended "A" (fun _ _ => 1/20) (fun _ => 1)
    [⟨0, 1, 2020⟩, ⟨1, 1, 2020⟩] h1 h2⟩

/-- Claim C2 (counterexample). In `_calculate_rebalanced_returns` the reset
to the target weights happens *after* the day's return is computed, so on
a reset date the return is computed with the drifted weights.  Concretely:
two tickers at target weight `1/2` each; dates `d1,d2` in month 1 and `d3`
in month 2; ticker `A` returns `100%` on `d2` and `d3`.  The weights drift
to `(2/3, 1/3)` after `d2`, and the return on the reset date `d3` is
`2/3 ≠ 1/2 = Σ(targetWeight_i × return_i)`. -/
theorem C2_counterexample :
    (⟨31, 2, 2020⟩ : TDate) ∈
      rebalanceDates [⟨0, 1, 2020⟩, ⟨1, 1, 2020⟩, ⟨31, 2, 2020⟩] "monthly" ∧
    rebalancedReturns ["A", "B"] ["A", "B"]
        (fun t d => if t = "A" ∧ 1 ≤ d.serial then 1 else 0)
        (fun t => if t = "A" then 1/2 else if t = "B" then 1/2 else 0)
        [⟨0, 1, 2020⟩, ⟨1, 1, 2020⟩, ⟨31, 2, 2020⟩] "monthly"
      = [0, 1/2, 2/3] ∧
    dayReturn ["A", "B"] ["A", "B"]
        (fun t d => if t = "A" ∧ 1 ≤ d.serial then 1 else 0)
        (fun t => if t = "A" then 1/2 else if t = "B" then 1/2 else 0)
        ⟨31, 2, 2020⟩
      = 1/2 ∧
    (2/3 : ℚ) ≠ 1/2 := by
  have hrd : rebalanceDates [⟨0, 1, 2020⟩, ⟨1, 1, 2020⟩, ⟨31, 2, 2020⟩] "monthly"
      = [⟨0, 1, 2020⟩, ⟨31, 2, 2020⟩] := by decide
  have hBA : ("B" = "A") = False := by decide
  have hAB : ("A" = "B") = False := by decide
  refine ⟨by rw [hrd]; simp, ?_, ?_, by norm_num⟩
  · rw [rebalancedReturns, hrd]
    norm_num [rebalancedFrom, dayReturn, renormalize, driftUpdate, totalWeight,
      hBA, hAB]
  · norm_num [dayReturn, hBA, hAB]

/-- Claim C2 (amended). On the first trading date of each calendar month
(resp. quarter) the weight vector is reset to the original target weights
*after* — not before — that day's portfolio return is computed: the reset
day's return uses the incoming (possibly drifted) weights, and it is the
return of the trading day immediately following a reset date that is
computed with exactly the original target weights,
`Σ(targetWeight_i × return_i)`; drift resumes after that day. -/
theorem C2_amended (als wks : List String) (R : String → TDate → ℚ)
    (target w : String → ℚ) (rdates : List TDate) (d d' : TDate)
    (rest : List TDate) (hd : d ∈ rdates) :
    (rebalancedFrom als wks R target rdates w (d :: d' :: rest)).head? =
      some (dayReturn als wks R w d) ∧
    (rebalancedFrom als wks R target rdates w (d :: d' :: rest))[1]? =
      some (dayReturn als wks R target d') := by
  constructor
  · simp [rebalancedFrom]
  · cases rest with
    | nil => simp [rebalancedFrom, if_pos hd]
    | cons d'' rest' => simp [rebalancedFrom, if_pos hd]

/-- Witness for `C2_amended`: the reset date `⟨31, 2, 2020⟩` (first
trading day of month 2) followed by `⟨32, 2, 2020⟩`, with drifted
incoming weights. -/
theorem C2_amended_witness :
    (⟨31, 2, 2020⟩ : TDate) ∈
      rebalanceDates [⟨0, 1, 2020⟩, ⟨31, 2, 2020⟩, ⟨32, 2, 2020⟩] "monthly" ∧
    (rebalancedFrom ["A", "B"] ["A", "B"] (fun _ _ => 1/10)
        (fun _ => (1:ℚ)/2)
        (rebalanceDates [⟨0, 1, 2020⟩, ⟨31, 2, 2020⟩, ⟨32, 2, 2020⟩] "monthly")
        (fun t => if t = "A" then 2/3 else 1/3)
        [⟨31, 2, 2020⟩, ⟨32, 2, 2020⟩])[1]? =
      some (dayReturn ["A", "B"] ["A", "B"] (fun _ _ => 1/10)
        (fun _ => (1:ℚ)/2) ⟨32, 2, 2020⟩) := by
  have hd : (⟨31, 2, 2020⟩ : TDate) ∈
      rebalanceDates [⟨0, 1, 2020⟩, ⟨31, 2, 2020⟩, ⟨32, 2, 2020⟩] "monthly" := by
    decide
  exact ⟨hd, (C2_amended ["A", "B"] ["A", "B"] (fun _ _ => 1/10)
    (fun _ => (1:ℚ)/2) (fun t => if t = "A" then 2/3 else 1/3)
    (rebalanceDates [⟨0, 1, 2020⟩, ⟨31, 2, 2020⟩, ⟨32, 2, 2020⟩] "monthly")
    ⟨31, 2, 2020⟩ ⟨32, 2, 2020⟩ [] hd).2⟩

/-- With an empty rebalance-date set the rebalanced recursion is exactly
the drifting recursion. -/
lemma rebalancedFrom_no_rdates (als wks : List String)
    (R : String → TDate → ℚ) (target : String → ℚ) :
    ∀ (dates : List TDate) (w : String → ℚ),
      rebalancedFrom als wks R target [] w dates =
        driftingReturns als wks R w dates
  | [], _ => rfl
  | [_], _ => rfl
  | d :: d' :: rest, w => by
      simp only [rebalancedFrom, driftingReturns, List.not_mem_nil, if_false]
      exact congrArg _
        (rebalancedFrom_no_rdates als wks R target (d' :: rest) _)

/-- Claim C10. A rebalance frequency that is neither `"monthly"` nor
`"quarterly"` yields an empty rebalance-date set, and then the
rebalanced-returns computation coincides, date by date, with the
drifting-returns computation: any unrecognized rebalance policy string
behaves identically to policy `none`. -/
theorem C10_unrecognized_freq_drifts (als wks : List String)
    (R : String → TDate → ℚ) (w : String → ℚ) (dates : List TDate)
    (freq : String) (h1 : freq ≠ "monthly") (h2 : freq ≠ "quarterly") :
    rebalanceDates dates freq = [] ∧
    rebalancedReturns als wks R w dates freq =
      driftingReturns als wks R w dates := by
  have hrd : rebalanceDates dates freq = [] := by
    unfold rebalanceDates
    rw [if_neg h1, if_neg h2]
  exact ⟨hrd, by
    unfold rebalancedReturns
    rw [hrd]
    exact rebalancedFrom_no_rdates als wks R w dates w⟩

/-- Witness for `C10_unrecognized_freq_drifts` at frequency `"weekly"`. -/
theorem C10_witness :
    (("weekly" : String) ≠ "monthly" ∧ ("weekly" : String) ≠ "quarterly") ∧
    rebalancedReturns ["A"] ["A"] (fun _ _ => 1/10) (fun _ => 1)
        [⟨0, 1, 2020⟩, ⟨1, 1, 2020⟩] "weekly" =
      driftingReturns ["A"] ["A"] (fun _ _ => 1/10) (fun _ => 1)
        [⟨0, 1, 2020⟩, ⟨1, 1, 2020⟩] := by
  have h1 : ("weekly" : String) ≠ "monthly" := by decide
  have h2 : ("weekly" : String) ≠ "quarterly" := by decide
  exact ⟨⟨h1, h2⟩, (C10_unrecognized_freq_drifts ["A"] ["A"]
    (fun _ _ => 1/10) (fun _ => 1) [⟨0, 1, 2020⟩, ⟨1, 1, 2020⟩]
    "weekly" h1 h2).2⟩

/-! ## VolatilityModelEnhancer: bounded ML adjustment

From `src/utils/volatility_model_enhancer.py`
(`predict_volatility_enhanced`): the external model's point estimate
`original_vol` is `None` when the model failed, otherwise a value; the
multiplier is clipped and applied to the realized base volatility. -/

/-- Embeds `np.clip(x, lo, hi)`. -/
def npClip (x lo hi : ℚ) : ℚ := min (max x lo) hi

/-- Embeds `ml_multiplier = np.clip(original_vol / base_portfolio_vol, 0.85, 1.15)`
when `original_vol is not None and base_portfolio_vol and
base_portfolio_vol > 0` (Python truthiness: `base_portfolio_vol` is falsy
exactly when it is `0.0`), else `1.0`. -/
def mlMultiplier (originalVol : Option ℚ) (basePortfolioVol : ℚ) : ℚ :=
  match originalVol with
  | some v =>
      if basePortfolioVol ≠ 0 ∧ 0 < basePortfolioVol then
        npClip (v / basePortfolioVol) 0.85 1.15
      else 1
  | none => 1

/-- Embeds `final_portfolio_vol = base_portfolio_vol * ml_multiplier`. -/
def finalPortfolioVol (originalVol : Option ℚ) (basePortfolioVol : ℚ) : ℚ :=
  basePortfolioVol * mlMultiplier originalVol basePortfolioVol

/-- Claim C8. With an external point estimate `v` and positive base
volatility, the final volatility is `base × clip(v / base, 0.85, 1.15)`
and always lies in `[0.85 × base, 1.15 × base]`; without an external
estimate the multiplier is exactly `1.0` and the final volatility equals
the base. -/
theorem C8_bounded_ml_adjustment (v base : ℚ) (hb : 0 < base) :
    finalPortfolioVol (some v) base = base * npClip (v / base) 0.85 1.15 ∧
    0.85 * base ≤ finalPortfolioVol (some v) base ∧
    finalPortfolioVol (some v) base ≤ 1.15 * base ∧
    (∀ b : ℚ, mlMultiplier none b = 1 ∧ finalPortfolioVol none b = b) := by
  have hcond : base ≠ 0 ∧ 0 < base := ⟨ne_of_gt hb, hb⟩
  have heq : finalPortfolioVol (some v) base =
      base * npClip (v / base) 0.85 1.15 := by
    simp [finalPortfolioVol, mlMultiplier, if_pos hcond]
  have hlo : (0.85 : ℚ) ≤ npClip (v / base) 0.85 1.15 := by
    unfold npClip
    exact le_min (le_max_right _ _) (by norm_num)
  have hhi : npClip (v / base) 0.85 1.15 ≤ 1.15 := min_le_right _ _
  refine ⟨heq, ?_, ?_, ?_⟩
  · rw [heq, mul_comm 0.85 base]
    exact mul_le_mul_of_nonneg_left hlo (le_of_lt hb)
  · rw [heq, mul_comm 1.15 base]
    exact mul_le_mul_of_nonneg_left hhi (le_of_lt hb)
  · intro b
    constructor <;> simp [mlMultiplier, finalPortfolioVol]

/-- Witness for `C8_bounded_ml_adjustment` at `v = 2`, `base = 1`. -/
theorem C8_witness :
    (0 : ℚ) < 1 ∧
    (0.85 * 1 ≤ finalPortfolioVol (some 2) 1 ∧
      finalPortfolioVol (some 2) 1 ≤ 1.15 * 1) := by
  have hb : (0 : ℚ) < 1 := by norm_num
  obtain ⟨_, h1, h2, _⟩ := C8_bounded_ml_adjustment 2 1 hb
  exact ⟨hb, h1, h2⟩

/-! ## CorrelationAnalyzer fallback and diversification score

From `src/utils/risk_analysis/correlation_analyzer.py`
(`_calculate_concentration_metrics`, `_create_fallback_result`) and
`src/utils/risk_analysis/risk_analyzer.py`
(`_calculate_diversification_score`, `_calculate_asset_type_bonus`).
`round(x, n)` is modelled as `round (x * 10^n) / 10^n` over `ℚ` (Python
uses banker's rounding, which differs from `round` only at exact
half-way points; no claim here depends on a half-way case). -/

/-- Embeds `round(x, n)`. -/
def roundTo (n : ℕ) (x : ℚ) : ℚ := (round (x * 10 ^ n) : ℤ) / 10 ^ n

/-- First occurrence of the maximal value (`idxmax` on a Series with
unique labels, returned with its value). -/
def firstArgmax {α β : Type} [LinearOrder β] : List (α × β) → Option (α × β)
  | [] => none
  | p :: rest =>
      some (rest.foldl (fun best q => if best.2 < q.2 then q else best) p)

/-- A row of the `top_holdings` / `largest_holding` output. -/
structure Holding where
  ticker : String
  weight : ℚ
  percentage : ℚ
deriving DecidableEq, Repr

/-- The `concentration_metrics` dict. -/
structure ConcentrationMetrics where
  hhi : ℚ
  concentration_level : String
  risk_color : String
  top_3_concentration : ℚ
  largest_holding : Holding
  top_holdings : List Holding
deriving DecidableEq, Repr

/-- The concentration banding of `_calculate_concentration_metrics`. -/
def concentrationLevel (hhi : ℚ) : String × String :=
  if hhi ≥ 0.25 then ("Very High", "#dc3545")
  else if hhi ≥ 0.15 then ("High", "#fd7e14")
  else if hhi ≥ 0.10 then ("Moderate", "#ffc107")
  else if hhi ≥ 0.05 then ("Low", "#20c997")
  else ("Very Low", "#28a745")

/-- One output row for a (ticker, normalisedWeight) pair. -/
def holdingRow (p : String × ℚ) : Holding :=
  ⟨p.1, roundTo 3 p.2, roundTo 1 (p.2 * 100)⟩

/-- Embeds `CorrelationAnalyzer._calculate_concentration_metrics`: normalise the
weights, `hhi = Σ normalizedWeight_i²`, band it, and report the top-3 and
largest holdings (`nlargest` = stable descending sort, first 3;
`idxmax` = first maximal row). -/
def concentrationMetrics (portfolio : List Asset) : ConcentrationMetrics :=
  let total := (portfolio.map Asset.weight).sum
  let entries := portfolio.map (fun a => (a.ticker, a.weight / total))
  let hhi := (entries.map (fun p => p.2 ^ 2)).sum
  let lv := concentrationLevel hhi
  let top := (entries.mergeSort (fun p q => q.2 ≤ p.2)).take 3
  let largest := (firstArgmax entries).getD ("N/A", 0)
  { hhi := roundTo 3 hhi
    concentration_level := lv.1
    risk_color := lv.2
    top_3_concentration := roundTo 3 (top.map Prod.snd).sum
    largest_holding := holdingRow largest
    top_holdings := top.map holdingRow }

/-- The `most_correlated_pair` dict. -/
structure MostCorrelatedPair where
  asset1 : String
  asset2 : String
  correlation : ℚ
  correlation_level : String
  risk_color : String
  risk_description : String
deriving DecidableEq, Repr

/-- The correlation-analysis result dict (fields produced by
`_create_fallback_result`; `correlation_matrix` is empty there). -/
structure CorrelationReport where
  most_correlated_pair : MostCorrelatedPair
  average_correlation : ℚ
  correlation_matrix : List (String × String × ℚ)
  concentration_metrics : ConcentrationMetrics
  total_assets : ℕ
  analysis_period_days : ℕ
  success : Bool
  error_message : String
  single_asset_portfolio : Bool
deriving DecidableEq, Repr

/-- Embeds `CorrelationAnalyzer._create_fallback_result`. -/
def createFallbackResult (lookbackDays : ℕ) (portfolio : List Asset) :
    CorrelationReport :=
  let isSingle := portfolio.length = 1
  let error_message :=
    if isSingle then "Single asset portfolio - correlation analysis not applicable"
    else "Unable to fetch price data for correlation analysis"
  let risk_description :=
    if isSingle then
      "Single asset portfolio - consider adding more assets for diversification"
    else "Correlation analysis unavailable"
  { most_correlated_pair :=
      ⟨"N/A", "N/A", 0, "Unknown", "#6c757d", risk_description⟩
    average_correlation := 0
    correlation_matrix := []
    concentration_metrics := concentrationMetrics portfolio
    total_assets := portfolio.length
    analysis_period_days := lookbackDays
    success := decide (portfolio.length > 1)
    error_message := error_message
    single_asset_portfolio := decide (portfolio.length = 1) }

/-- Substring containment, `sub in s` for Python strings. -/
def strContains (s sub : String) : Bool :=
  (List.range (s.toList.length + 1)).any
    (fun i => sub.toList.isPrefixOf (s.toList.drop i))

/-- Embeds `RiskAnalyzer._calculate_asset_type_bonus`: bonus points for a
single-asset portfolio depending on the asset category of its upper-cased
ticker; `2.0` when the portfolio is not a single asset. -/
def assetTypeBonus (portfolio : List Asset) : ℚ :=
  match portfolio with
  | [a] =>
      let ticker := a.ticker.toUpper
      if ticker ∈ ["VTI", "VOO", "SPY", "VT", "ITOT", "SCHB", "IVV", "SWTSX"]
        then 4
      else if ticker ∈ ["EFA", "EEM", "VEA", "VWO", "IEFA", "IEMG", "SCHE", "SCHF"]
        then 3.5
      else if ticker ∈ ["AGG", "BND", "VCIT", "VCSH", "VGSH", "TLT", "IEF", "SHY", "SCHZ"]
        then 3
      else if ticker ∈ ["XLK", "XLF", "XLE", "XLV", "XLI", "XLP", "XLU", "XLB", "XLY", "XLRE"]
        then 2
      else if ticker ∈ ["GLD", "SLV", "USO", "UNG", "DBA", "DBC"]
        then 2.5
      else if ["ETF", "FUND", "INDEX"].any (fun ind => strContains ticker ind)
        then 2.5
      else 1
  | _ => 2

/-- The 4-segment piecewise-linear concentration score of
`_calculate_diversification_score` (multi-asset path). -/
def concentrationScore (hhi : ℚ) : ℚ :=
  if hhi ≤ 0.1 then 100
  else if hhi ≤ 0.25 then 80 - (hhi - 0.1) * 200
  else if hhi ≤ 0.5 then 60 - (hhi - 0.25) * 80
  else max 0 (40 - (hhi - 0.5) * 80)

/-- Embeds `RiskAnalyzer._calculate_diversification_score` (the `score` value):
`10 + assetTypeBonus` for a single-asset portfolio, otherwise the capped
weighted blend of correlation score, concentration score and asset-count
bonus. -/
def diversificationScore (portfolio : List Asset) (avgCorrelation hhi : ℚ)
    (totalAssets : ℕ) (isSingleAsset : Bool) : ℚ :=
  if isSingleAsset then 10 + assetTypeBonus portfolio
  else
    min 100 (max 0 (100 - avgCorrelation * 100) * 0.5 +
      concentrationScore hhi * 0.4 + min 10 (((totalAssets : ℚ) - 2) * 2))

/-- Claim C4. For every single-asset basket with positive weight, the
correlation fallback is a well-defined "not applicable" report:
`single_asset_portfolio = true`, `most_correlated_pair` is the
not-applicable placeholder, the concentration metrics report `HHI = 1.0`,
the asset-type bonus is at most `4`, and the diversification score is
`10 + bonus ≤ 15` whatever the single asset is. -/
theorem C4_single_asset_fallback (a : Asset) (lookbackDays : ℕ)
    (hw : 0 < a.weight) :
    (createFallbackResult lookbackDays [a]).single_asset_portfolio = true ∧
    (createFallbackResult lookbackDays [a]).most_correlated_pair =
      ⟨"N/A", "N/A", 0, "Unknown", "#6c757d",
        "Single asset portfolio - consider adding more assets for diversification"⟩ ∧
    (createFallbackResult lookbackDays [a]).success = false ∧
    (createFallbackResult lookbackDays [a]).concentration_metrics.hhi = 1 ∧
    assetTypeBonus [a] ≤ 4 ∧
    diversificationScore [a]
        (createFallbackResult lookbackDays [a]).average_correlation
        (createFallbackResult lookbackDays [a]).concentration_metrics.hhi
        (createFallbackResult lookbackDays [a]).total_assets
        (createFallbackResult lookbackDays [a]).single_asset_portfolio
      = 10 + assetTypeBonus [a] ∧
    diversificationScore [a]
        (createFallbackResult lookbackDays [a]).average_correlation
        (createFallbackResult lookbackDays [a]).concentration_metrics.hhi
        (createFallbackResult lookbackDays [a]).total_assets
        (createFallbackResult lookbackDays [a]).single_asset_portfolio
      ≤ 15 := by
  have hone : (createFallbackResult lookbackDays [a]).single_asset_portfolio
      = true := by
    simp [createFallbackResult]
  have hbonus : assetTypeBonus [a] ≤ 4 := by
    unfold assetTypeBonus
    split <;> dsimp only <;> split_ifs <;> norm_num
  have hhhi : (createFallbackResult lookbackDays [a]).concentration_metrics.hhi
      = 1 := by
    have hne : a.weight ≠ 0 := ne_of_gt hw
    simp only [createFallbackResult, concentrationMetrics, List.map_cons,
      List.map_nil, List.sum_cons, List.sum_nil, add_zero]
    rw [div_self hne]
    norm_num [roundTo]
  have hscore : diversificationScore [a]
      (createFallbackResult lookbackDays [a]).average_correlation
      (createFallbackResult lookbackDays [a]).concentration_metrics.hhi
      (createFallbackResult lookbackDays [a]).total_assets
      (createFallbackResult lookbackDays [a]).single_asset_portfolio
      = 10 + assetTypeBonus [a] := by
    rw [hone]
    simp [diversificationScore]
  refine ⟨hone, by simp [createFallbackResult], by simp [createFallbackResult],
    hhhi, hbonus, hscore, ?_⟩
  rw [hscore]
  linarith

/-- Witness for `C4_single_asset_fallback` at the basket `[{VTI, 1.0}]`. -/
theorem C4_witness :
    (0 : ℚ) < (Asset.mk "VTI" 1).weight ∧
    (createFallbackResult 252 [Asset.mk "VTI" 1]).single_asset_portfolio
      = true ∧
    (createFallbackResult 252 [Asset.mk "VTI" 1]).concentration_metrics.hhi
      = 1 ∧
    diversificationScore [Asset.mk "VTI" 1]
        (createFallbackResult 252 [Asset.mk "VTI" 1]).average_correlation
        (createFallbackResult 252 [Asset.mk "VTI" 1]).concentration_metrics.hhi
        (createFallbackResult 252 [Asset.mk "VTI" 1]).total_assets
        (createFallbackResult 252 [Asset.mk "VTI" 1]).single_asset_portfolio
      ≤ 15 := by
  have hw : (0 : ℚ) < (Asset.mk "VTI" 1).weight := by norm_num
  obtain ⟨h1, _, _, h4, _, _, h7⟩ := C4_single_asset_fallback (Asset.mk "VTI" 1) 252 hw
  exact ⟨hw, h1, h4, h7⟩

/-! ## EnhancedVolatilityEstimator: portfolio volatility aggregation

From `src/utils/enhanced_volatility_estimator.py`
(`estimate_portfolio_volatility_enhanced`, lines 676–735).  The length-`n`
numpy arrays `weights` (already normalised) and `asset_volatilities` are
modelled as functions `ℕ → ℝ` read on `Finset.range n`; the correlation
matrix is `ℕ → ℕ → Option ℝ` with `none` standing for a NaN entry, for
which the code substitutes the fixed fallback correlation `0.6`. -/

/-- Embeds `weighted_avg_vol = np.sum(weights * asset_volatilities)`. -/
def weightedAvgVol (n : ℕ) (w v : ℕ → ℝ) : ℝ :=
  ∑ i ∈ Finset.range n, w i * v i

/-- Embeds `variance_sum = np.sum((weights * asset_volatilities) ** 2)`. -/
def varianceSum (n : ℕ) (w v : ℕ → ℝ) : ℝ :=
  ∑ i ∈ Finset.range n, (w i * v i) ^ 2

/-- The double loop
`covariance_sum += weights[i]*weights[j]*vols[i]*vols[j]*corr_value`
over `i ≠ j`, with the `0.6` fallback for NaN entries. -/
def covarianceSumMatrix (n : ℕ) (w v : ℕ → ℝ) (corr : ℕ → ℕ → Option ℝ) : ℝ :=
  ∑ i ∈ Finset.range n, ∑ j ∈ Finset.range n,
    if i ≠ j then w i * w j * v i * v j * ((corr i j).getD 0.6) else 0

/-- The assumption-based branch:
`covariance_sum = avg_correlation * np.sum([w_i w_j v_i v_j for i ≠ j])`. -/
def covarianceSumUniform (n : ℕ) (w v : ℕ → ℝ) (avgCorr : ℝ) : ℝ :=
  avgCorr * ∑ i ∈ Finset.range n, ∑ j ∈ Finset.range n,
    if i ≠ j then w i * w j * v i * v j else 0

/-- Embeds `portfolio_volatility = np.sqrt(variance_sum + covariance_sum)` with a
real correlation matrix. -/
noncomputable def portfolioVolatilityReal (n : ℕ) (w v : ℕ → ℝ)
    (corr : ℕ → ℕ → Option ℝ) : ℝ :=
  Real.sqrt (varianceSum n w v + covarianceSumMatrix n w v corr)

/-- Embeds `portfolio_volatility = np.sqrt(variance_sum + covariance_sum)` in the
uniform-correlation branches. -/
noncomputable def portfolioVolatilityAssumed (n : ℕ) (w v : ℕ → ℝ)
    (avgCorr : ℝ) : ℝ :=
  Real.sqrt (varianceSum n w v + covarianceSumUniform n w v avgCorr)

/-- Embeds `diversification_benefit = weighted_avg_vol - portfolio_volatility`
(real-matrix branch). -/
noncomputable def diversificationBenefitReal (n : ℕ) (w v : ℕ → ℝ)
    (corr : ℕ → ℕ → Option ℝ) : ℝ :=
  weightedAvgVol n w v - portfolioVolatilityReal n w v corr

/-- Embeds `diversification_benefit` in the uniform-correlation branches. -/
noncomputable def diversificationBenefitAssumed (n : ℕ) (w v : ℕ → ℝ)
    (avgCorr : ℝ) : ℝ :=
  weightedAvgVol n w v - portfolioVolatilityAssumed n w v avgCorr

lemma variance_plus_cov_le_sq (n : ℕ) (w v : ℕ → ℝ)
    (corr : ℕ → ℕ → Option ℝ)
    (hw : ∀ i, 0 ≤ w i) (hv : ∀ i, 0 ≤ v i)
    (hc : ∀ i j, i < n → j < n → i ≠ j → ((corr i j).getD 0.6) ≤ 1) :
    varianceSum n w v + covarianceSumMatrix n w v corr ≤
      weightedAvgVol n w v ^ 2 := by
  have ha : ∀ i, 0 ≤ w i * v i := fun i => mul_nonneg (hw i) (hv i)
  have hexpand : weightedAvgVol n w v ^ 2 =
      varianceSum n w v + ∑ i ∈ Finset.range n, ∑ j ∈ Finset.range n,
        (if i ≠ j then (w i * v i) * (w j * v j) else 0) := by
    rw [sq, weightedAvgVol, Finset.sum_mul_sum, varianceSum,
      ← Finset.sum_add_distrib]
    refine Finset.sum_congr rfl (fun i hi => ?_)
    have hsplit : ∀ j, (w i * v i) * (w j * v j) =
        (if i = j then (w i * v i) * (w j * v j) else 0) +
        (if i ≠ j then (w i * v i) * (w j * v j) else 0) := by
      intro j
      by_cases h : i = j <;> simp [h]
    calc ∑ j ∈ Finset.range n, (w i * v i) * (w j * v j)
        = ∑ j ∈ Finset.range n,
            ((if i = j then (w i * v i) * (w j * v j) else 0) +
             (if i ≠ j then (w i * v i) * (w j * v j) else 0)) :=
          Finset.sum_congr rfl (fun j _ => hsplit j)
      _ = (w i * v i) ^ 2 + ∑ j ∈ Finset.range n,
            (if i ≠ j then (w i * v i) * (w j * v j) else 0) := by
          rw [Finset.sum_add_distrib, Finset.sum_ite_eq (Finset.range n) i
            (fun j => (w i * v i) * (w j * v j)), if_pos hi, sq]
  rw [hexpand]
  refine add_le_add_left (Finset.sum_le_sum (fun i hi =>
    Finset.sum_le_sum (fun j hj => ?_))) _
  by_cases h : i = j
  · simp [h]
  · rw [if_pos h, if_pos h]
    have harr : w i * w j * v i * v j * ((corr i j).getD 0.6) =
        ((w i * v i) * (w j * v j)) * ((corr i j).getD 0.6) := by ring
    rw [harr]
    exact mul_le_of_le_one_right (mul_nonneg (ha i) (ha j))
      (hc i j (Finset.mem_range.mp hi) (Finset.mem_range.mp hj) h)

lemma covarianceSumUniform_eq_matrix (n : ℕ) (w v : ℕ → ℝ) (avgCorr : ℝ) :
    covarianceSumUniform n w v avgCorr =
      covarianceSumMatrix n w v (fun _ _ => some avgCorr) := by
  unfold covarianceSumUniform covarianceSumMatrix
  rw [Finset.mul_sum]
  refine Finset.sum_congr rfl (fun i _ => ?_)
  rw [Finset.mul_sum]
  refine Finset.sum_congr rfl (fun j _ => ?_)
  by_cases h : i = j
  · rw [if_neg (by simp [h]), if_neg (by simp [h]), mul_zero]
  · rw [if_pos h, if_pos h, Option.getD_some]
    ring

/-- Claim C7. Whenever every pairwise correlation used (a real matrix entry,
the `0.6` fallback for a NaN entry, or the uniform `0.6` assumption) is
`< 1` and the (normalised) weights and per-asset volatilities are
non-negative, the diversified portfolio volatility
`sqrt(Σ(wᵢvᵢ)² + Σ_{i≠j} wᵢwⱼvᵢvⱼρᵢⱼ)` is at most the weighted-average
volatility `Σ wᵢvᵢ`, so the reported diversification benefit is `≥ 0` —
in both the real-matrix branch and the assumption branch. -/
theorem C7_diversification_benefit_nonneg (n : ℕ) (w v : ℕ → ℝ)
    (corr : ℕ → ℕ → Option ℝ)
    (hw : ∀ i, 0 ≤ w i) (hv : ∀ i, 0 ≤ v i)
    (hc : ∀ i j, i < n → j < n → i ≠ j → ((corr i j).getD 0.6) < 1) :
    portfolioVolatilityReal n w v corr ≤ weightedAvgVol n w v ∧
    0 ≤ diversificationBenefitReal n w v corr ∧
    portfolioVolatilityAssumed n w v 0.6 ≤ weightedAvgVol n w v ∧
    0 ≤ diversificationBenefitAssumed n w v 0.6 := by
  have havg : 0 ≤ weightedAvgVol n w v :=
    Finset.sum_nonneg (fun i _ => mul_nonneg (hw i) (hv i))
  have key : ∀ (c : ℕ → ℕ → Option ℝ),
      (∀ i j, i < n → j < n → i ≠ j → ((c i j).getD 0.6) ≤ 1) →
      portfolioVolatilityReal n w v c ≤ weightedAvgVol n w v := by
    intro c hcle
    have h1 := variance_plus_cov_le_sq n w v c hw hv hcle
    calc portfolioVolatilityReal n w v c
        ≤ Real.sqrt (weightedAvgVol n w v ^ 2) := Real.sqrt_le_sqrt h1
      _ = weightedAvgVol n w v := Real.sqrt_sq havg
  have hreal : portfolioVolatilityReal n w v corr ≤ weightedAvgVol n w v :=
    key corr (fun i j hi hj hij => le_of_lt (hc i j hi hj hij))
  have hassumed : portfolioVolatilityAssumed n w v 0.6 ≤
      weightedAvgVol n w v := by
    have := key (fun _ _ => some 0.6) (fun i j _ _ _ => by norm_num)
    rwa [portfolioVolatilityAssumed, covarianceSumUniform_eq_matrix]
  exact ⟨hreal, by simpa [diversificationBenefitReal] using hreal,
    hassumed, by simpa [diversificationBenefitAssumed] using hassumed⟩

/-- Witness for `C7_diversification_benefit_nonneg`: two assets at weight
`1/2`, volatility `0.2`, true correlation `1/2` everywhere. -/
theorem C7_witness :
    ((∀ i : ℕ, (0:ℝ) ≤ (fun _ => (1:ℝ)/2) i) ∧
      (∀ i : ℕ, (0:ℝ) ≤ (fun _ => (0.2:ℝ)) i) ∧
      (∀ i j : ℕ, i < 2 → j < 2 → i ≠ j →
        (((fun _ _ => some (1/2)) i j : Option ℝ).getD 0.6) < 1)) ∧
    0 ≤ diversificationBenefitReal 2 (fun _ => (1:ℝ)/2) (fun _ => (0.2:ℝ))
      (fun _ _ => some (1/2)) := by
  have h1 : ∀ i : ℕ, (0:ℝ) ≤ (fun _ => (1:ℝ)/2) i := by intro i; norm_num
  have h2 : ∀ i : ℕ, (0:ℝ) ≤ (fun _ => (0.2:ℝ)) i := by intro i; norm_num
  have h3 : ∀ i j : ℕ, i < 2 → j < 2 → i ≠ j →
      (((fun _ _ => some (1/2)) i j : Option ℝ).getD 0.6) < 1 := by
    intro i j _ _ _; norm_num
  exact ⟨⟨h1, h2, h3⟩,
    (C7_diversification_benefit_nonneg 2 (fun _ => (1:ℝ)/2)
      (fun _ => (0.2:ℝ)) (fun _ _ => some (1/2)) h1 h2 h3).2.1⟩

/-! ## MetricsService: `_calculate_max_drawdown`

The equity curve is a date-indexed pandas Series with a sorted unique
index, modelled as `List (TDate × α)`.  `.loc[:d]` / `.loc[d:]` on such a
Series are label filters (`≤ d` / `≥ d` on the timestamp), `idxmin` /
`idxmax` return the first label attaining the extremum, and `.loc[d]` is
the lookup of the first entry labelled `d`.  Everything is generic in a
linear ordered field so the same code runs at `ℚ` (exact reasoning) and
at `ℝ` (inside `calculateMetrics`). -/

/-- First occurrence of the minimal value (`idxmin`, with its value). -/
def firstArgmin {α β : Type} [LinearOrder β] : List (α × β) → Option (α × β)
  | [] => none
  | p :: rest =>
      some (rest.foldl (fun best q => if q.2 < best.2 then q else best) p)

/-- Tail of the running maximum, continuing from accumulated max `m`. -/
def cummaxAux {α : Type} [LinearOrder α] (m : α) :
    List (TDate × α) → List (TDate × α)
  | [] => []
  | (d, v) :: rest => (d, max m v) :: cummaxAux (max m v) rest

/-- Embeds `peaks = equity_curve.cummax()`. -/
def cummax {α : Type} [LinearOrder α] : List (TDate × α) → List (TDate × α)
  | [] => []
  | (d, v) :: rest => (d, v) :: cummaxAux v rest

/-- Embeds `drawdown = equity_curve / peaks - 1.0` (indexes aligned). -/
def drawdownList {α : Type} [LinearOrderedField α] (ec : List (TDate × α)) :
    List (TDate × α) :=
  List.zipWith (fun p q => (p.1, p.2 / q.2 - 1)) ec (cummax ec)

/-- Embeds `.loc[d]`: value of the first entry labelled `d`. -/
def seriesLoc {α : Type} (s : List (TDate × α)) (d : TDate) : Option α :=
  (s.find? (fun p => p.1 = d)).map Prod.snd

/-- Embeds `len(pd.date_range(start, end, freq='B'))` for serial day numbers:
the number of weekdays in `[s, e]`. -/
def bdaysCount (s e : ℕ) : ℕ :=
  ((List.range' s (e + 1 - s)).filter (fun d => d % 7 < 5)).length

/-- Embeds `trough_date = drawdown.idxmin()` (with `max_dd`, its value). -/
def troughOf {α : Type} [LinearOrderedField α] (ec : List (TDate × α)) :
    Option (TDate × α) :=
  firstArgmin (drawdownList ec)

/-- Embeds `peak_before = peaks.loc[:trough_date].idxmax()` (with its value). -/
def peakBeforeOf {α : Type} [LinearOrderedField α] (ec : List (TDate × α)) :
    Option (TDate × α) :=
  (troughOf ec).bind (fun tr =>
    firstArgmax ((cummax ec).filter (fun p => p.1.serial ≤ tr.1.serial)))

/-- Embeds `peak_value = peaks.loc[peak_before]`. -/
def peakValueOf {α : Type} [LinearOrderedField α] (ec : List (TDate × α)) :
    Option α :=
  (peakBeforeOf ec).bind (fun pb => seriesLoc (cummax ec) pb.1)

/-- Embeds `first_below_peak`: under the guard
`peak_before < equity_curve.index[-1]`, the first date at or after
`peak_before` where equity drops strictly below the peak value. -/
def firstBelowOf {α : Type} [LinearOrderedField α] (ec : List (TDate × α)) :
    Option (TDate × α) :=
  match ec.getLast?, peakBeforeOf ec, peakValueOf ec with
  | some lastE, some pb, some pv =>
      if pb.1.serial < lastE.1.serial then
        (ec.filter (fun p => pb.1.serial ≤ p.1.serial)).find?
          (fun p => p.2 < pv)
      else none
  | _, _, _ => none

/-- Embeds `recovery_date`: the first date at or after `first_below_peak` where
equity is again `≥ peak_value` (with its value). -/
def recoveryEntryOf {α : Type} [LinearOrderedField α]
    (ec : List (TDate × α)) : Option (TDate × α) :=
  match firstBelowOf ec, peakValueOf ec with
  | some fb, some pv =>
      (ec.filter (fun p => fb.1.serial ≤ p.1.serial)).find?
        (fun p => pv ≤ p.2)
  | _, _ => none

/-- Embeds `recovery_days`: business days from `peak_before + 1 day` to
`recovery_date`, inclusive. -/
def recoveryDaysOf {α : Type} [LinearOrderedField α]
    (ec : List (TDate × α)) : Option ℕ :=
  match peakBeforeOf ec, recoveryEntryOf ec with
  | some pb, some re => some (bdaysCount (pb.1.serial + 1) re.1.serial)
  | _, _ => none

/-- Embeds `MetricsService._calculate_max_drawdown`: returns
`(max_dd, recovery_days, drawdown)`. -/
def calcMaxDrawdown {α : Type} [LinearOrderedField α]
    (ec : List (TDate × α)) : α × Option ℕ × List (TDate × α) :=
  (((troughOf ec).map Prod.snd).getD 0, recoveryDaysOf ec, drawdownList ec)

/-! ## MetricsService: `calculate_metrics` -/

/-- Tail of the cumulative product `(1 + returns).cumprod()`. -/
def cumprodAux {α : Type} [Field α] (acc : α) :
    List (TDate × α) → List (TDate × α)
  | [] => []
  | (d, r) :: rest => (d, acc * (1 + r)) :: cumprodAux (acc * (1 + r)) rest

/-- Embeds `equity_curve = (1 + returns).cumprod()`. -/
def equityCurve {α : Type} [Field α] (returns : List (TDate × α)) :
    List (TDate × α) :=
  cumprodAux 1 returns

/-- Embeds `.min()` of a Series' values (`none` on an empty series). -/
def seriesMin {α : Type} [LinearOrder α] : List α → Option α
  | [] => none
  | x :: xs => some (xs.foldl min x)

/-- Embeds `round(x, n)` over the reals (same half-way caveat as `roundTo`). -/
noncomputable def roundR (n : ℕ) (x : ℝ) : ℝ :=
  (round (x * 10 ^ n) : ℤ) / 10 ^ n

/-- The calendar-month bin of a date, for `resample('ME')`. -/
def monthIdx (d : TDate) : ℕ := d.year * 12 + (d.month - 1)

/-- Embeds `MetricsService._calculate_worst_month`:
`returns.resample('ME').apply(lambda x: (1 + x).prod() - 1)` then `.min()`
— every month bin between the first and last observation contributes,
an empty bin compounding to `0`; the `except: return 0.0` fallback is the
`0` result for an empty input. -/
def worstMonth (returns : List (TDate × ℝ)) : ℝ :=
  match returns with
  | [] => 0
  | r :: _ =>
      let idxs := returns.map (fun p => monthIdx p.1)
      let lo := idxs.foldl min (monthIdx r.1)
      let hi := idxs.foldl max (monthIdx r.1)
      let monthRets := (List.range (hi + 1 - lo)).map (fun k =>
        ((returns.filter (fun p => monthIdx p.1 = lo + k)).map
          (fun p => 1 + p.2)).prod - 1)
      match monthRets with
      | [] => 0
      | x :: xs => xs.foldl min x

/-- Embeds `x.mean()`. -/
noncomputable def seriesMean (xs : List ℝ) : ℝ := xs.sum / xs.length

/-- Embeds `x.std()` — pandas sample standard deviation (ddof = 1).  pandas
yields NaN for a single observation; NaN is not representable here, so
that case is modelled as `0` (no claim depends on a length-1 series). -/
noncomputable def seriesStd (xs : List ℝ) : ℝ :=
  if xs.length ≤ 1 then 0
  else Real.sqrt
    (((xs.map (fun x => (x - seriesMean xs) ^ 2)).sum) / (xs.length - 1))

/-- The metrics dict returned by `MetricsService.calculate_metrics`. -/
structure Metrics where
  cumReturnPct : ℝ
  maxDrawdownPct : ℝ
  timeToRecoveryDays : Option ℕ
  worstDayPct : ℝ
  worstMonthPct : ℝ
  annVolPct : ℝ
  sharpeLite : ℝ

/-- Embeds `MetricsService.calculate_metrics`. -/
noncomputable def calculateMetrics (returns : List (TDate × ℝ)) : Metrics :=
  match returns with
  | [] =>
      { cumReturnPct := 0.0, maxDrawdownPct := 0.0, timeToRecoveryDays := none
        worstDayPct := 0.0, worstMonthPct := 0.0, annVolPct := 0.0
        sharpeLite := 0.0 }
  | _ :: _ =>
      let ec := equityCurve returns
      let cumReturnPct := (((ec.getLast?).map Prod.snd).getD 0 - 1) * 100
      let mdd := calcMaxDrawdown ec
      let worstDayPct := ((seriesMin (returns.map Prod.snd)).getD 0) * 100
      let worstMonthPct := worstMonth returns * 100
      let std := seriesStd (returns.map Prod.snd)
      let annVolPct := std * Real.sqrt 252 * 100
      let annReturn := seriesMean (returns.map Prod.snd) * 252
      let sharpeLite :=
        if std > 0 then annReturn / (std * Real.sqrt 252) else 0
      { cumReturnPct := roundR 1 cumReturnPct
        maxDrawdownPct := roundR 1 (mdd.1 * 100)
        timeToRecoveryDays := mdd.2.1
        worstDayPct := roundR 1 worstDayPct
        worstMonthPct := roundR 1 worstMonthPct
        annVolPct := roundR 1 annVolPct
        sharpeLite := roundR 2 sharpeLite }

/-- Claim C5. `calculate_metrics` on an empty return series returns the
all-zero metrics object — cumulative return, max drawdown, worst day,
worst month, annualized volatility and Sharpe-lite all `0.0`, and
time-to-recovery absent — and, being a total function, never raises. -/
theorem C5_empty_metrics :
    calculateMetrics [] =
      { cumReturnPct := 0.0, maxDrawdownPct := 0.0, timeToRecoveryDays := none
        worstDayPct := 0.0, worstMonthPct := 0.0, annVolPct := 0.0
        sharpeLite := 0.0 } := rfl

/-! ## PortfolioService.calculate_portfolio_returns and the orchestrator

The external price source `PriceService.get_adjusted_prices(ticker,
start_date, end_date)` is modelled as an injected function from the
ticker and the (opaque) start/end date strings to a date-indexed price
list; an empty list is the "no data" result.  `run_crash_test` also needs
`len(pd.date_range(scenario.start, scenario.end, freq='B'))`, which
parses the date strings; that count is injected as `expectedBDays` since the
strings are opaque here. -/

/-- Embeds `prices.pct_change()` after the first entry. -/
def pctChangeAux (prev : ℚ) : List (TDate × ℚ) → List (TDate × ℚ)
  | [] => []
  | (d, p) :: rest => (d, p / prev - 1) :: pctChangeAux p rest

/-- Embeds `returns = prices.pct_change().dropna()`: pairwise relative change,
first date dropped. -/
def pctChange : List (TDate × ℚ) → List (TDate × ℚ)
  | [] => []
  | (_, p) :: rest => pctChangeAux p rest

/-- Python dict `get(key, 0)` over an association list built with
"later entries overwrite earlier" semantics. -/
def dictGetD (l : List (String × ℚ)) (t : String) : ℚ :=
  ((l.reverse.find? (fun p => p.1 = t)).map Prod.snd).getD 0

/-- The reindexed-with-zero-fill lookup behind `aligned_returns`:
a ticker's return on a date, `0` when the ticker has no observation
there (`reindex(common_dates).fillna(0)`) or is not in `ticker_data`. -/
def alignedLookup (tickerData : List (String × List (TDate × ℚ))) :
    String → TDate → ℚ :=
  fun t d =>
    match tickerData.find? (fun p => p.1 = t) with
    | some (_, s) => ((s.find? (fun q => q.1 = d)).map Prod.snd).getD 0
    | none => 0

/-- Embeds `common_dates = sorted(all_dates)`: the deduplicated union of the
observation dates of every ticker with data, ascending by timestamp. -/
def commonDatesOf (tickerData : List (String × List (TDate × ℚ))) :
    List TDate :=
  ((tickerData.map (fun p => p.2.map Prod.fst)).flatten.dedup).mergeSort
    (fun a b => a.serial ≤ b.serial)

/-- The result dict of `calculate_portfolio_returns` (the
`aligned_returns` debug payload is recoverable from `returns`' inputs and
is not carried separately). -/
structure PortfolioReturnsResult where
  returns : List (TDate × ℚ)
  coverage : List (String × ℚ)
  error : Option String

/-- Embeds `PortfolioService.calculate_portfolio_returns`. -/
def calculatePortfolioReturns
    (priceSource : String → String → String → List (TDate × ℚ))
    (portfolio : List Asset) (startDate endDate : String)
    (rebalance : String) : PortfolioReturnsResult :=
  let tickerData := portfolio.filterMap (fun a =>
    let prices := priceSource a.ticker startDate endDate
    if prices ≠ [] then some (a.ticker, pctChange prices) else none)
  let coverage := portfolio.map (fun a =>
    let prices := priceSource a.ticker startDate endDate
    if prices ≠ [] then
      (a.ticker, ((pctChange prices).length : ℚ) / prices.length)
    else (a.ticker, 0))
  if tickerData = [] then
    let missing := (portfolio.filter
      (fun a => dictGetD coverage a.ticker = 0)).map Asset.ticker
    { returns := []
      coverage := coverage
      error := some ("No valid price data found for tickers: " ++
        String.intercalate ", " missing ++
        ". These assets may not have been trading during the specified period.") }
  else
    let als := tickerData.map Prod.fst
    let wks := portfolio.map Asset.ticker
    let w := fun t =>
      ((portfolio.reverse.find? (fun a => a.ticker = t)).map
        Asset.weight).getD 0
    let dates := commonDatesOf tickerData
    let R := alignedLookup tickerData
    let rets :=
      if rebalance = "none" then driftingReturns als wks R w dates
      else rebalancedReturns als wks R w dates rebalance
    { returns := dates.zip rets, coverage := coverage, error := none }

/-- A crash-test scenario; `stop` is the dict's `'end'` key. -/
structure Scenario where
  id : String
  label : String
  start : String
  stop : String

/-- The recognised `options` keys. -/
structure CrashOptions where
  rebalance : Option String
  benchmarks : List String

/-- A per-scenario result: exactly one of `error` (the Failed entry with
its human-readable reason and `coveragePct = 0`) or `metrics`/`series`
(the Succeeded entry) is populated.  The chart series carries the dates,
the rounded equity curve and the rounded drawdown percentages (the
`strftime` date formatting is not modelled). -/
structure ScenarioResult where
  id : String
  error : Option String
  coveragePct : ℚ
  metrics : Option Metrics
  series : Option (List TDate × List ℝ × List ℝ)

/-- Embeds `MetricsService.generate_series_data`. -/
noncomputable def generateSeriesData (returns : List (TDate × ℝ)) :
    List TDate × List ℝ × List ℝ :=
  match returns with
  | [] => ([], [], [])
  | _ :: _ =>
      let ec := equityCurve returns
      (returns.map Prod.fst,
       ec.map (fun p => roundR 4 p.2),
       List.zipWith (fun p q => roundR 2 ((p.2 / q.2 - 1) * 100))
         ec (cummax ec))

/-- Embeds `CrashTestService._calculate_scenario_coverage`. -/
def scenarioCoverage (coverageData : List (String × ℚ)) : ℚ :=
  if coverageData = [] then 0
  else roundTo 3 ((coverageData.map Prod.snd).sum / coverageData.length)

/-- Embeds `CrashTestService._analyze_scenario`.  The `except` wrapper of the
Python code cannot fire in this total embedding; the two explicit failure
paths (price-data error, fewer than 10 observations) are the Failed
entries. -/
noncomputable def analyzeScenario
    (priceSource : String → String → String → List (TDate × ℚ))
    (portfolio : List Asset) (scenario : Scenario)
    (options : CrashOptions) : ScenarioResult :=
  let pr := calculatePortfolioReturns priceSource portfolio
    scenario.start scenario.stop (options.rebalance.getD "none")
  match pr.error with
  | some e =>
      { id := scenario.id, error := some e, coveragePct := 0
        metrics := none, series := none }
  | none =>
      if pr.returns.isEmpty ∨ pr.returns.length < 10 then
        { id := scenario.id
          error := some ("Insufficient price data for " ++ scenario.id ++
            " scenario. Need at least 10 trading days.")
          coveragePct := 0, metrics := none, series := none }
      else
        let rets := pr.returns.map (fun p => (p.1, (p.2 : ℝ)))
        { id := scenario.id
          error := none
          coveragePct := scenarioCoverage pr.coverage
          metrics := some (calculateMetrics rets)
          series := some (generateSeriesData rets) }

/-- Embeds `CrashTestService._calculate_portfolio_coverage`: per-ticker average
coverage across scenarios, plus the overall average. -/
def calcPortfolioCoverage
    (priceSource : String → String → String → List (TDate × ℚ))
    (expectedBDays : String → String → ℕ)
    (tickers : List String) (scenarios : List Scenario) :
    ℚ × List (String × ℚ) :=
  let byTicker := tickers.map (fun t =>
    let covs := scenarios.map (fun sc =>
      let prices := priceSource t sc.start sc.stop
      if prices ≠ [] then
        let expected := expectedBDays sc.start sc.stop
        if expected > 0 then min ((prices.length : ℚ) / expected) 1 else 0
      else 0)
    (t, roundTo 3 (if covs = [] then 0 else covs.sum / covs.length)))
  let overall :=
    if byTicker = [] then 0
    else roundTo 3 ((byTicker.map Prod.snd).sum / byTicker.length)
  (overall, byTicker)

/-- The benchmark basket for a benchmark name
(`CrashTestService._calculate_benchmarks`). -/
def benchmarkPortfolio (benchmark : String) : List Asset :=
  if benchmark = "60_40" then [⟨"SPY", 0.6⟩, ⟨"AGG", 0.4⟩]
  else [⟨benchmark, 1⟩]

/-- Embeds `CrashTestService._calculate_benchmarks`. -/
noncomputable def calcBenchmarks
    (priceSource : String → String → String → List (TDate × ℚ))
    (scenarios : List Scenario) (options : CrashOptions) :
    List (String × List ScenarioResult) :=
  options.benchmarks.map (fun b =>
    (b, scenarios.map (fun sc =>
      analyzeScenario priceSource (benchmarkPortfolio b) sc options)))

/-- The result dict of `run_crash_test`. -/
structure CrashTestResults where
  portfolioCoverage : ℚ × List (String × ℚ)
  scenarios : List ScenarioResult
  benchmarks : List (String × List ScenarioResult)

/-- Embeds `CrashTestService.run_crash_test`. -/
noncomputable def runCrashTest
    (priceSource : String → String → String → List (TDate × ℚ))
    (expectedBDays : String → String → ℕ)
    (portfolio : List Asset) (scenarios : List Scenario)
    (options : CrashOptions) : CrashTestResults :=
  { portfolioCoverage := calcPortfolioCoverage priceSource expectedBDays
      (portfolio.map Asset.ticker) scenarios
    scenarios := scenarios.map (fun sc =>
      analyzeScenario priceSource portfolio sc options)
    benchmarks :=
      if options.benchmarks ≠ [] then
        calcBenchmarks priceSource scenarios options
      else [] }

/-- Claim C6. `run_crash_test` produces exactly one result entry per
requested scenario, in order, each carrying that scenario's id, so no
scenario-level failure ever aborts the batch; and both scenario-level
failure modes — no asset producing price data, and a return series with
fewer than 10 observations — yield a Failed entry with a human-readable
reason, no metrics, and coverage `0`. -/
theorem C6_batch_isolation
    (priceSource : String → String → String → List (TDate × ℚ))
    (expectedBDays : String → String → ℕ)
    (portfolio : List Asset) (scenarios : List Scenario)
    (options : CrashOptions) :
    (runCrashTest priceSource expectedBDays portfolio scenarios
        options).scenarios =
      scenarios.map (fun sc =>
        analyzeScenario priceSource portfolio sc options) ∧
    (runCrashTest priceSource expectedBDays portfolio scenarios
        options).scenarios.length = scenarios.length ∧
    (∀ sc ∈ scenarios,
      (analyzeScenario priceSource portfolio sc options).id = sc.id) ∧
    (∀ sc ∈ scenarios,
      (∀ a ∈ portfolio, priceSource a.ticker sc.start sc.stop = []) →
        (calculatePortfolioReturns priceSource portfolio sc.start sc.stop
          (options.rebalance.getD "none")).error.isSome) ∧
    (∀ sc ∈ scenarios,
      ((calculatePortfolioReturns priceSource portfolio sc.start sc.stop
          (options.rebalance.getD "none")).error.isSome ∨
        (calculatePortfolioReturns priceSource portfolio sc.start sc.stop
          (options.rebalance.getD "none")).returns.length < 10) →
        (analyzeScenario priceSource portfolio sc options).error.isSome ∧
        (analyzeScenario priceSource portfolio sc options).coveragePct = 0 ∧
        (analyzeScenario priceSource portfolio sc options).metrics = none) := by
  refine ⟨rfl, by simp [runCrashTest], fun sc _ => ?_, fun sc _ hall => ?_,
    fun sc _ hfail => ?_⟩
  · unfold analyzeScenario
    cases h : (calculatePortfolioReturns priceSource portfolio sc.start
        sc.stop (options.rebalance.getD "none")).error with
    | some e => simp [h]
    | none =>
        simp only [h]
        split <;> rfl
  · unfold calculatePortfolioReturns
    have hnone : portfolio.filterMap (fun a =>
        let prices := priceSource a.ticker sc.start sc.stop
        if prices ≠ [] then some (a.ticker, pctChange prices) else none)
        = [] := by
      rw [List.filterMap_eq_nil_iff]
      intro a ha
      simp only [ne_eq, ite_eq_right_iff]
      intro hne
      exact absurd (hall a ha) hne
    simp [hnone]
    rw [if_pos hall]
    simp
  · unfold analyzeScenario
    rcases hfail with herr | hlen
    · obtain ⟨e, he⟩ := Option.isSome_iff_exists.mp herr
      simp [he]
    · cases h : (calculatePortfolioReturns priceSource portfolio sc.start
          sc.stop (options.rebalance.getD "none")).error with
      | some e => simp [h]
      | none =>
          have hcond : ((calculatePortfolioReturns priceSource portfolio
              sc.start sc.stop
              (options.rebalance.getD "none")).returns.isEmpty ∨
            (calculatePortfolioReturns priceSource portfolio sc.start
              sc.stop (options.rebalance.getD "none")).returns.length < 10) :=
            Or.inr hlen
          simp only [h, if_pos hcond]
          simp

/-- Witness for `C6_batch_isolation`: an always-empty price source, a
one-asset basket and one scenario — the single result entry is the Failed
entry for that scenario. -/
theorem C6_witness :
    ((runCrashTest (fun _ _ _ => []) (fun _ _ => 0) [Asset.mk "A" 1]
        [⟨"gfc", "Global Financial Crisis", "2007-10-09", "2013-03-28"⟩]
        ⟨none, []⟩).scenarios.length = 1) ∧
    ((analyzeScenario (fun _ _ _ => []) [Asset.mk "A" 1]
        ⟨"gfc", "Global Financial Crisis", "2007-10-09", "2013-03-28"⟩
        ⟨none, []⟩).id = "gfc") ∧
    (analyzeScenario (fun _ _ _ => []) [Asset.mk "A" 1]
        ⟨"gfc", "Global Financial Crisis", "2007-10-09", "2013-03-28"⟩
        ⟨none, []⟩).error.isSome ∧
    (analyzeScenario (fun _ _ _ => []) [Asset.mk "A" 1]
        ⟨"gfc", "Global Financial Crisis", "2007-10-09", "2013-03-28"⟩
        ⟨none, []⟩).coveragePct = 0 := by
  have h := C6_batch_isolation (fun _ _ _ => []) (fun _ _ => 0)
    [Asset.mk "A" 1]
    [⟨"gfc", "Global Financial Crisis", "2007-10-09", "2013-03-28"⟩]
    ⟨none, []⟩
  obtain ⟨-, hlen, hid, hnodata, hfailed⟩ := h
  have hsc : (⟨"gfc", "Global Financial Crisis", "2007-10-09",
      "2013-03-28"⟩ : Scenario) ∈
      [(⟨"gfc", "Global Financial Crisis", "2007-10-09",
        "2013-03-28"⟩ : Scenario)] := List.mem_singleton.mpr rfl
  have herr := hnodata _ hsc (fun a _ => rfl)
  have hf := hfailed _ hsc (Or.inl herr)
  exact ⟨hlen, hid _ hsc, hf.1, hf.2.1⟩

/-! ## Lemmas for the max-drawdown recovery analysis (claim C3) -/

lemma foldl_choice {γ : Type} (f : γ → γ → γ)
    (hf : ∀ b a, f b a = b ∨ f b a = a) (l : List γ) :
    ∀ b, l.foldl f b = b ∨ l.foldl f b ∈ l := by
  induction l with
  | nil => intro b; exact Or.inl rfl
  | cons a l ih =>
      intro b
      rw [List.foldl_cons]
      rcases hf b a with h | h
      · rw [h]
        rcases ih b with h' | h'
        · exact Or.inl h'
        · exact Or.inr (List.mem_cons_of_mem a h')
      · rw [h]
        rcases ih a with h' | h'
        · exact Or.inr (by rw [h']; exact List.mem_cons_self a l)
        · exact Or.inr (List.mem_cons_of_mem a h')

lemma firstArgmax_mem {γ β : Type} [LinearOrder β] (l : List (γ × β))
    (y : γ × β) (h : firstArgmax l = some y) : y ∈ l := by
  cases l with
  | nil => cases h
  | cons p rest =>
      unfold firstArgmax at h
      have hy := Option.some.inj h
      have hstep : ∀ (b a : γ × β),
          (if b.2 < a.2 then a else b) = b ∨
          (if b.2 < a.2 then a else b) = a := by
        intro b a; split
        · exact Or.inr rfl
        · exact Or.inl rfl
      rcases foldl_choice _ hstep rest p with h' | h'
      · rw [hy] at h'
        exact h' ▸ List.mem_cons_self p rest
      · rw [hy] at h'
        exact List.mem_cons_of_mem p h'

lemma firstArgmin_mem {γ β : Type} [LinearOrder β] (l : List (γ × β))
    (y : γ × β) (h : firstArgmin l = some y) : y ∈ l := by
  cases l with
  | nil => cases h
  | cons p rest =>
      unfold firstArgmin at h
      have hy := Option.some.inj h
      have hstep : ∀ (b a : γ × β),
          (if a.2 < b.2 then a else b) = b ∨
          (if a.2 < b.2 then a else b) = a := by
        intro b a; split
        · exact Or.inr rfl
        · exact Or.inl rfl
      rcases foldl_choice _ hstep rest p with h' | h'
      · rw [hy] at h'
        exact h' ▸ List.mem_cons_self p rest
      · rw [hy] at h'
        exact List.mem_cons_of_mem p h'

lemma cummaxAux_map_fst {β : Type} [LinearOrder β] :
    ∀ (l : List (TDate × β)) (m : β),
      (cummaxAux m l).map Prod.fst = l.map Prod.fst
  | [], _ => rfl
  | (d, v) :: rest, m => by
      simp only [cummaxAux, List.map_cons, List.cons.injEq, true_and]
      exact cummaxAux_map_fst rest (max m v)

lemma cummax_map_fst {β : Type} [LinearOrder β] (l : List (TDate × β)) :
    (cummax l).map Prod.fst = l.map Prod.fst := by
  cases l with
  | nil => rfl
  | cons p rest =>
      obtain ⟨d, v⟩ := p
      simp only [cummax, List.map_cons, List.cons.injEq, true_and]
      exact cummaxAux_map_fst rest v

lemma cummax_length {β : Type} [LinearOrder β] (l : List (TDate × β)) :
    (cummax l).length = l.length := by
  have h := congrArg List.length (cummax_map_fst l)
  simpa using h

lemma zipWith_fst_proj {A B C : Type} (g : A → C) :
    ∀ (l1 : List A) (l2 : List B), l1.length ≤ l2.length →
      List.zipWith (fun p _ => g p) l1 l2 = l1.map g
  | [], _, _ => by simp
  | _ :: _, [], h => by simp at h
  | a :: l1, b :: l2, h => by
      simp only [List.zipWith_cons_cons, List.map_cons, List.cons.injEq,
        true_and]
      exact zipWith_fst_proj g l1 l2 (by simpa using h)

lemma drawdown_map_fst {β : Type} [LinearOrderedField β]
    (ec : List (TDate × β)) :
    (drawdownList ec).map Prod.fst = ec.map Prod.fst := by
  unfold drawdownList
  rw [List.map_zipWith]
  exact zipWith_fst_proj Prod.fst ec (cummax ec) (le_of_eq (cummax_length ec).symm)

lemma cummax_pairwise {β : Type} [LinearOrder β] (l : List (TDate × β))
    (h : l.Pairwise (fun p q => p.1.serial < q.1.serial)) :
    (cummax l).Pairwise (fun p q => p.1.serial < q.1.serial) := by
  have h1 : (l.map Prod.fst).Pairwise (fun d e : TDate => d.serial < e.serial) :=
    h.map Prod.fst (fun _ _ hab => hab)
  have h2 : ((cummax l).map Prod.fst).Pairwise
      (fun d e : TDate => d.serial < e.serial) := by
    rwa [cummax_map_fst]
  exact List.Pairwise.of_map Prod.fst (fun _ _ hab => hab) h2

lemma filter_le_prefix {β : Type} (l : List (TDate × β))
    (h : l.Pairwise (fun p q => p.1.serial < q.1.serial)) (s : ℕ) :
    l.filter (fun p => p.1.serial ≤ s) <+: l := by
  induction l with
  | nil => simp
  | cons x xs ih =>
      rw [List.pairwise_cons] at h
      rw [List.filter_cons]
      by_cases hx : x.1.serial ≤ s
      · rw [if_pos (by simpa using hx)]
        obtain ⟨t, ht⟩ := ih h.2
        exact ⟨t, by rw [List.cons_append, ht]⟩
      · rw [if_neg (by simpa using hx)]
        have hnil : xs.filter (fun p => p.1.serial ≤ s) = [] := by
          rw [List.filter_eq_nil_iff]
          intro y hy
          have : x.1.serial < y.1.serial := h.1 y hy
          simp only [decide_eq_true_eq]
          omega
        rw [hnil]
        exact List.nil_prefix

lemma pairwise_serial_unique {β : Type} (l : List (TDate × β))
    (h : l.Pairwise (fun p q => p.1.serial < q.1.serial)) :
    ∀ x ∈ l, ∀ y ∈ l, x.1.serial = y.1.serial → x = y := by
  induction l with
  | nil => intro x hx; cases hx
  | cons a xs ih =>
      rw [List.pairwise_cons] at h
      intro x hx y hy hxy
      rcases List.mem_cons.mp hx with rfl | hx'
      · rcases List.mem_cons.mp hy with rfl | hy'
        · rfl
        · exact absurd hxy (Nat.ne_of_lt (h.1 y hy'))
      · rcases List.mem_cons.mp hy with rfl | hy'
        · exact absurd hxy (Nat.ne_of_gt (h.1 x hx'))
        · exact ih h.2 x hx' y hy' hxy

lemma find?_date_of_pairwise {β : Type} (l : List (TDate × β))
    (h : l.Pairwise (fun p q => p.1.serial < q.1.serial))
    (y : TDate × β) (hy : y ∈ l) :
    l.find? (fun p => p.1 = y.1) = some y := by
  induction l with
  | nil => cases hy
  | cons a xs ih =>
      rw [List.pairwise_cons] at h
      rcases List.mem_cons.mp hy with rfl | hy'
      · rw [List.find?_cons_of_pos _ (by simp)]
      · have hne : a.1 ≠ y.1 := by
          have hs := h.1 y hy'
          intro hc
          rw [hc] at hs
          exact lt_irrefl _ hs
        rw [List.find?_cons_of_neg _ (by simpa using hne)]
        exact ih h.2 hy'

lemma mem_serial_le_getLast {β : Type} :
    ∀ (l : List (TDate × β)),
      l.Pairwise (fun p q => p.1.serial < q.1.serial) →
      ∀ lastE, l.getLast? = some lastE →
      ∀ x ∈ l, x.1.serial ≤ lastE.1.serial
  | [], _, lastE, hl => by cases hl
  | [a], _, lastE, hl => by
      intro x hx
      have ha : a = lastE := by simpa using hl
      rcases List.mem_singleton.mp hx with rfl
      rw [← ha]
  | a :: b :: ys, h, lastE, hl => by
      rw [List.pairwise_cons] at h
      have hl' : (b :: ys).getLast? = some lastE := by
        simpa [List.getLast?_cons_cons] using hl
      have hlast_mem : lastE ∈ b :: ys := by
        obtain ⟨hne2, heq⟩ := List.mem_getLast?_eq_getLast
          (Option.mem_def.mpr hl')
        rw [heq]
        exact List.getLast_mem hne2
      intro x hx
      rcases List.mem_cons.mp hx with rfl | hx'
      · exact le_of_lt (h.1 lastE hlast_mem)
      · exact mem_serial_le_getLast (b :: ys) h.2 lastE hl' x hx'

lemma find?_min_of_pairwise {β : Type} (l : List (TDate × β))
    (h : l.Pairwise (fun p q => p.1.serial < q.1.serial))
    (pred : TDate × β → Bool) (fb : TDate × β)
    (hf : l.find? pred = some fb) :
    ∀ x ∈ l, pred x = true → fb.1.serial ≤ x.1.serial := by
  induction l with
  | nil => cases hf
  | cons a xs ih =>
      rw [List.pairwise_cons] at h
      intro x hx hpx
      by_cases ha : pred a = true
      · rw [List.find?_cons_of_pos _ ha] at hf
        obtain rfl := Option.some.inj hf
        rcases List.mem_cons.mp hx with rfl | hx'
        · exact le_refl _
        · exact le_of_lt (h.1 x hx')
      · rw [List.find?_cons_of_neg _ ha] at hf
        rcases List.mem_cons.mp hx with rfl | hx'
        · exact absurd hpx ha
        · exact ih h.2 hf x hx' hpx

lemma bdaysCount_pos (s e : ℕ) (hse : s ≤ e) (hbd : e % 7 < 5) :
    0 < bdaysCount s e := by
  unfold bdaysCount
  have hmem : e ∈ (List.range' s (e + 1 - s)).filter (fun d => d % 7 < 5) := by
    rw [List.mem_filter]
    constructor
    · rw [List.mem_range'_1]
      omega
    · simpa using hbd
  exact List.length_pos.mpr (List.ne_nil_of_mem hmem)

/-- Key structural fact behind `idxmax` on a running maximum: folding the
first-occurrence-max step over a prefix `P` of `cummaxAux m l`, starting
from an accumulator `b` with `m ≤ b.2`, either never improves on `b` or
lands on an entry of the *original* list `l` (the running maximum takes a
fresh value exactly where the underlying series attains it). -/
lemma argmax_cummaxAux {β : Type} [LinearOrder β] :
    ∀ (l : List (TDate × β)) (m : β) (P : List (TDate × β)),
      P <+: cummaxAux m l →
      ∀ b : TDate × β, m ≤ b.2 →
        (P.foldl (fun best q => if best.2 < q.2 then q else best) b = b) ∨
        (b.2 < (P.foldl (fun best q => if best.2 < q.2 then q else best) b).2 ∧
          P.foldl (fun best q => if best.2 < q.2 then q else best) b ∈ l)
  | [], m, P, hP, b, hmb => by
      have hPn : P = [] := by
        simpa [cummaxAux] using List.prefix_nil.mp (by simpa [cummaxAux] using hP)
      subst hPn
      exact Or.inl rfl
  | (d, v) :: r, m, P, hP, b, hmb => by
      cases P with
      | nil => exact Or.inl rfl
      | cons q P' =>
          simp only [cummaxAux] at hP
          obtain ⟨rfl, hP'⟩ := List.cons_prefix_cons.mp hP
          rw [List.foldl_cons]
          by_cases hlt : b.2 < (d, max m v).2
          · rw [if_pos hlt]
            have hlt' : b.2 < max m v := hlt
            have hmv : max m v = v := by
              rcases max_cases m v with ⟨h1, _⟩ | ⟨h1, _⟩
              · exfalso
                rw [h1] at hlt'
                exact absurd hmb (not_le.mpr hlt')
              · exact h1
            have hrec := argmax_cummaxAux r (max m v) P' hP' (d, max m v)
              (le_refl _)
            rcases hrec with h' | ⟨h1, h2⟩
            · rw [h']
              refine Or.inr ⟨hlt', ?_⟩
              rw [hmv]
              exact List.mem_cons_self _ _
            · exact Or.inr ⟨lt_trans hlt' h1, List.mem_cons_of_mem _ h2⟩
          · rw [if_neg hlt]
            have hle : max m v ≤ b.2 := not_lt.mp hlt
            rcases argmax_cummaxAux r (max m v) P' hP' b hle with h' | ⟨h1, h2⟩
            · exact Or.inl h'
            · exact Or.inr ⟨h1, List.mem_cons_of_mem _ h2⟩

/-- The peak entry computed by `_calculate_max_drawdown` is a real entry
of the equity curve, and the `peaks.loc[peak_before]` lookup returns
exactly its value: at the first date where the running maximum attains
its prefix maximum, the equity itself equals that value. -/
lemma peak_props {β : Type} [LinearOrderedField β] (ec : List (TDate × β))
    (hne : ec ≠ [])
    (hsorted : ec.Pairwise (fun p q => p.1.serial < q.1.serial)) :
    ∃ pb, peakBeforeOf ec = some pb ∧ pb ∈ ec ∧ peakValueOf ec = some pb.2 := by
  obtain ⟨⟨d0, v0⟩, rest, rfl⟩ :
      ∃ e0 rest, ec = e0 :: rest := by
    cases ec with
    | nil => exact absurd rfl hne
    | cons e0 rest => exact ⟨e0, rest, rfl⟩
  set ec := (d0, v0) :: rest with hec
  have hddne : drawdownList ec ≠ [] := by
    intro hdd
    have := drawdown_map_fst ec
    rw [hdd] at this
    simp [hec] at this
  obtain ⟨tr, htr⟩ : ∃ tr, troughOf ec = some tr := by
    unfold troughOf
    cases hdd : drawdownList ec with
    | nil => exact absurd hdd hddne
    | cons x xs => exact ⟨_, by rw [firstArgmin]⟩
  have htrmem : tr ∈ drawdownList ec := firstArgmin_mem _ _ htr
  have htrdate : tr.1 ∈ ec.map Prod.fst := by
    rw [← drawdown_map_fst ec]
    exact List.mem_map_of_mem Prod.fst htrmem
  have hle : d0.serial ≤ tr.1.serial := by
    obtain ⟨x, hx, hxeq⟩ := List.mem_map.mp htrdate
    rcases List.mem_cons.mp hx with rfl | hx'
    · exact le_of_eq (congrArg TDate.serial hxeq)
    · have := (List.pairwise_cons.mp hsorted).1 x hx'
      rw [← hxeq]
      exact le_of_lt this
  have hcm : cummax ec = (d0, v0) :: cummaxAux v0 rest := rfl
  have hcmpw := cummax_pairwise ec hsorted
  have hfil : (cummax ec).filter (fun p => p.1.serial ≤ tr.1.serial) =
      (d0, v0) :: (cummaxAux v0 rest).filter
        (fun p => p.1.serial ≤ tr.1.serial) := by
    rw [hcm, List.filter_cons, if_pos (by simpa using hle)]
  have hpre : (cummax ec).filter (fun p => p.1.serial ≤ tr.1.serial) <+:
      cummax ec := filter_le_prefix (cummax ec) hcmpw tr.1.serial
  have hP' : (cummaxAux v0 rest).filter
      (fun p => p.1.serial ≤ tr.1.serial) <+: cummaxAux v0 rest := by
    have := hpre
    rw [hfil, hcm] at this
    exact (List.cons_prefix_cons.mp this).2
  set P' := (cummaxAux v0 rest).filter (fun p => p.1.serial ≤ tr.1.serial)
    with hP'def
  set pb := P'.foldl (fun best q => if best.2 < q.2 then q else best) (d0, v0)
    with hpbdef
  have hstep : ∀ (b a : TDate × β),
      (if b.2 < a.2 then a else b) = b ∨
      (if b.2 < a.2 then a else b) = a := by
    intro b a; split
    · exact Or.inr rfl
    · exact Or.inl rfl
  have hpb : peakBeforeOf ec = some pb := by
    unfold peakBeforeOf
    rw [htr, Option.some_bind, hfil, firstArgmax]
  have hchoice := argmax_cummaxAux rest v0 P' hP' (d0, v0) (le_refl v0)
  have hpbmem : pb ∈ ec := by
    rcases hchoice with h' | ⟨_, h2⟩
    · rw [hpbdef, h']
      exact List.mem_cons_self _ _
    · exact List.mem_cons_of_mem _ h2
  have hmemcm : pb ∈ cummax ec := by
    rcases foldl_choice _ hstep P' (d0, v0) with h' | h'
    · rw [hpbdef, h', hcm]
      exact List.mem_cons_self _ _
    · have hfilmem : pb ∈ (cummax ec).filter
          (fun p => p.1.serial ≤ tr.1.serial) := by
        rw [hfil]
        exact List.mem_cons_of_mem _ h'
      exact List.mem_of_mem_filter hfilmem
  have hpv : peakValueOf ec = some pb.2 := by
    unfold peakValueOf
    rw [hpb, Option.some_bind]
    unfold seriesLoc
    rw [find?_date_of_pairwise (cummax ec) hcmpw pb hmemcm]
    rfl
  exact ⟨pb, hpb, hpbmem, hpv⟩

/-- The claim's recovery condition, phrased over the equity curve with
the peak entry computed by the code (`peak_props` shows the reported
`peak_value` equals that entry's value): some date at or after the peak
dips strictly below the peak value, and at or after that dip equity is
again `≥` the peak value. -/
def RecoversSpec {β : Type} [LinearOrderedField β]
    (ec : List (TDate × β)) : Prop :=
  ∃ pb, peakBeforeOf ec = some pb ∧
    ∃ p ∈ ec, pb.1.serial ≤ p.1.serial ∧ p.2 < pb.2 ∧
      ∃ q ∈ ec, p.1.serial ≤ q.1.serial ∧ pb.2 ≤ q.2

/-- Claim C3. For every non-empty equity curve (sorted business-day index),
the time-to-recovery reported by `_calculate_max_drawdown` is `none`
exactly when the curve never returns to the pre-trough peak value after
first dipping below it; otherwise it is the (positive) count of business
days between `peak date + 1` and the recovery date inclusive, and the
recovery date is strictly after the peak date. -/
theorem C3_recovery_time {β : Type} [LinearOrderedField β]
    (ec : List (TDate × β)) (hne : ec ≠ [])
    (hsorted : ec.Pairwise (fun p q => p.1.serial < q.1.serial))
    (hbd : ∀ p ∈ ec, p.1.serial % 7 < 5) :
    (calcMaxDrawdown ec).2.1 = recoveryDaysOf ec ∧
    (recoveryDaysOf ec = none ↔ ¬ RecoversSpec ec) ∧
    (∀ n, recoveryDaysOf ec = some n →
      0 < n ∧ ∃ pb re, peakBeforeOf ec = some pb ∧
        recoveryEntryOf ec = some re ∧ pb.1.serial < re.1.serial ∧
        n = bdaysCount (pb.1.serial + 1) re.1.serial) := by
  obtain ⟨pb, hpb, hpbmem, hpv⟩ := peak_props ec hne hsorted
  have hlast := List.getLast?_eq_getLast_of_ne_nil hne
  set lastE := ec.getLast hne with hlastE
  have hlastmax := mem_serial_le_getLast ec hsorted (ec.getLast hne) hlast
  have hfb_char : firstBelowOf ec =
      if pb.1.serial < (ec.getLast hne).1.serial then
        (ec.filter (fun x => pb.1.serial ≤ x.1.serial)).find?
          (fun x => x.2 < pb.2)
      else none := by
    unfold firstBelowOf
    rw [hlast, hpb, hpv]
  have hre_char : ∀ fb, firstBelowOf ec = some fb →
      recoveryEntryOf ec =
        (ec.filter (fun x => fb.1.serial ≤ x.1.serial)).find?
          (fun x => pb.2 ≤ x.2) := by
    intro fb hfb
    unfold recoveryEntryOf
    rw [hfb, hpv]
  have hre_none : firstBelowOf ec = none → recoveryEntryOf ec = none := by
    intro hfb
    unfold recoveryEntryOf
    rw [hfb]
  have hrd_char : ∀ re, recoveryEntryOf ec = some re →
      recoveryDaysOf ec =
        some (bdaysCount (pb.1.serial + 1) re.1.serial) := by
    intro re hre
    unfold recoveryDaysOf
    rw [hpb, hre]
  have hrd_none : recoveryEntryOf ec = none → recoveryDaysOf ec = none := by
    intro hre
    unfold recoveryDaysOf
    rw [hpb, hre]
  have hfb_props : ∀ fb, firstBelowOf ec = some fb →
      fb ∈ ec ∧ pb.1.serial ≤ fb.1.serial ∧ fb.2 < pb.2 ∧
        pb.1.serial < fb.1.serial := by
    intro fb hfb
    rw [hfb_char] at hfb
    by_cases hg : pb.1.serial < (ec.getLast hne).1.serial
    · rw [if_pos hg] at hfb
      have hmem := List.mem_of_find?_eq_some hfb
      have hpred := List.find?_some hfb
      have hfbec : fb ∈ ec := List.mem_of_mem_filter hmem
      have hfble : pb.1.serial ≤ fb.1.serial := by
        simpa using (List.mem_filter.mp hmem).2
      have hfblt : fb.2 < pb.2 := by simpa using hpred
      refine ⟨hfbec, hfble, hfblt, ?_⟩
      rcases lt_or_eq_of_le hfble with h | h
      · exact h
      · exfalso
        have heq : fb = pb :=
          pairwise_serial_unique ec hsorted fb hfbec pb hpbmem h.symm
        rw [heq] at hfblt
        exact lt_irrefl _ hfblt
    · rw [if_neg hg] at hfb
      cases hfb
  have hre_props : ∀ fb re, firstBelowOf ec = some fb →
      recoveryEntryOf ec = some re →
      re ∈ ec ∧ fb.1.serial ≤ re.1.serial ∧ pb.2 ≤ re.2 := by
    intro fb re hfb hre
    rw [hre_char fb hfb] at hre
    have hmem := List.mem_of_find?_eq_some hre
    refine ⟨List.mem_of_mem_filter hmem, ?_, ?_⟩
    · simpa using (List.mem_filter.mp hmem).2
    · simpa using List.find?_some hre
  refine ⟨rfl, ⟨?_, ?_⟩, ?_⟩
  · -- none → never recovers
    intro hnone hrec
    obtain ⟨pb', hpb', p, hpmem, hple, hplt, q, hqmem, hpqle, hqge⟩ := hrec
    rw [hpb] at hpb'
    obtain rfl := Option.some.inj hpb'
    cases hfb : firstBelowOf ec with
    | some fb =>
        cases hre : recoveryEntryOf ec with
        | some re =>
            rw [hrd_char re hre] at hnone
            cases hnone
        | none =>
            rw [hre_char fb hfb] at hre
            have hall := List.find?_eq_none.mp hre
            obtain ⟨hfbec, hfble, hfblt, _⟩ := hfb_props fb hfb
            have hpfilter : p ∈ ec.filter
                (fun x => pb.1.serial ≤ x.1.serial) :=
              List.mem_filter.mpr ⟨hpmem, by simpa using hple⟩
            have hfb2 : (ec.filter
                (fun x => pb.1.serial ≤ x.1.serial)).find?
                  (fun x => x.2 < pb.2) = some fb := by
              rw [hfb_char] at hfb
              by_cases hg : pb.1.serial < (ec.getLast hne).1.serial
              · rwa [if_pos hg] at hfb
              · rw [if_neg hg] at hfb
                cases hfb
            have hfmin := find?_min_of_pairwise _ (hsorted.filter _) _ fb
              hfb2 p hpfilter (by simpa using hplt)
            have hqfilter : q ∈ ec.filter
                (fun x => fb.1.serial ≤ x.1.serial) :=
              List.mem_filter.mpr ⟨hqmem, by
                simp only [decide_eq_true_eq]
                omega⟩
            have hcontra := hall q hqfilter
            simp only [decide_eq_true_eq] at hcontra
            exact hcontra hqge
    | none =>
        rw [hfb_char] at hfb
        by_cases hg : pb.1.serial < (ec.getLast hne).1.serial
        · rw [if_pos hg] at hfb
          have hall := List.find?_eq_none.mp hfb
          have hpfilter : p ∈ ec.filter
              (fun x => pb.1.serial ≤ x.1.serial) :=
            List.mem_filter.mpr ⟨hpmem, by simpa using hple⟩
          have hcontra := hall p hpfilter
          simp only [decide_eq_true_eq] at hcontra
          exact hcontra hplt
        · have hple2 : p.1.serial ≤ (ec.getLast hne).1.serial :=
            hlastmax p hpmem
          have hpeq : p.1.serial = pb.1.serial := by omega
          have heq : p = pb :=
            pairwise_serial_unique ec hsorted p hpmem pb hpbmem hpeq
          rw [heq] at hplt
          exact lt_irrefl _ hplt
  · -- never recovers → none
    intro h
    cases hre : recoveryEntryOf ec with
    | none => exact hrd_none hre
    | some re =>
        exfalso
        cases hfb : firstBelowOf ec with
        | none =>
            rw [hre_none hfb] at hre
            cases hre
        | some fb =>
            obtain ⟨hfbec, hfble, hfblt, _⟩ := hfb_props fb hfb
            obtain ⟨hreec, hrele, hrege⟩ := hre_props fb re hfb hre
            exact h ⟨pb, hpb, fb, hfbec, hfble, hfblt, re, hreec, hrele, hrege⟩
  · -- some n → positive, recovery strictly after peak
    intro n hn
    cases hre : recoveryEntryOf ec with
    | none =>
        rw [hrd_none hre] at hn
        cases hn
    | some re =>
        rw [hrd_char re hre] at hn
        obtain rfl := Option.some.inj hn
        cases hfb : firstBelowOf ec with
        | none =>
            rw [hre_none hfb] at hre
            cases hre
        | some fb =>
            obtain ⟨hfbec, hfble, hfblt, hfbstrict⟩ := hfb_props fb hfb
            obtain ⟨hreec, hrele, hrege⟩ := hre_props fb re hfb hre
            have hlt : pb.1.serial < re.1.serial :=
              lt_of_lt_of_le hfbstrict hrele
            exact ⟨bdaysCount_pos _ _ (by omega) (hbd re hreec),
              pb, re, hpb, rfl, hlt, rfl⟩

/-- A concrete 3-day equity curve: peak on day 0, trough on day 1
(drawdown −50%), recovery on day 2. -/
def c3curve : List (TDate × ℚ) :=
  [(⟨0, 1, 2020⟩, 1), (⟨1, 1, 2020⟩, 1/2), (⟨2, 1, 2020⟩, 2)]

/-- Witness for `C3_recovery_time` on `c3curve`: the reported recovery
time is `some 2` business days and the theorem yields its positivity and
the none-iff characterisation. -/
theorem C3_witness :
    (c3curve ≠ [] ∧
      List.Pairwise (fun p q => p.1.serial < q.1.serial) c3curve ∧
      (∀ p ∈ c3curve, p.1.serial % 7 < 5)) ∧
    recoveryDaysOf c3curve = some 2 ∧
    0 < 2 ∧
    (recoveryDaysOf c3curve = none ↔ ¬ RecoversSpec c3curve) := by
  have h1 : c3curve ≠ [] := by simp [c3curve]
  have h2 : List.Pairwise (fun p q => p.1.serial < q.1.serial) c3curve := by
    simp [c3curve]
  have h3 : ∀ p ∈ c3curve, p.1.serial % 7 < 5 := by
    intro p hp
    rcases List.mem_cons.mp hp with rfl | hp'
    · norm_num
    · rcases List.mem_cons.mp hp' with rfl | hp''
      · norm_num
      · rcases List.mem_singleton.mp hp'' with rfl
        norm_num
  have hdd : drawdownList c3curve =
      [(⟨0, 1, 2020⟩, 0), (⟨1, 1, 2020⟩, -1/2), (⟨2, 1, 2020⟩, 0)] := by
    norm_num [c3curve, drawdownList, cummax, cummaxAux]
  have htr : troughOf c3curve = some (⟨1, 1, 2020⟩, -1/2) := by
    rw [troughOf, hdd]
    norm_num [firstArgmin]
  have hpb : peakBeforeOf c3curve = some (⟨0, 1, 2020⟩, 1) := by
    rw [peakBeforeOf, htr, Option.some_bind]
    norm_num [c3curve, cummax, cummaxAux, firstArgmax]
  have hpv : peakValueOf c3curve = some 1 := by
    rw [peakValueOf, hpb, Option.some_bind]
    norm_num [c3curve, cummax, cummaxAux, seriesLoc]
  have hfb : firstBelowOf c3curve = some (⟨1, 1, 2020⟩, 1/2) := by
    rw [firstBelowOf]
    rw [show c3curve.getLast? = some (⟨2, 1, 2020⟩, 2) from rfl, hpb, hpv]
    norm_num [c3curve]
  have hre : recoveryEntryOf c3curve = some (⟨2, 1, 2020⟩, 2) := by
    rw [recoveryEntryOf, hfb, hpv]
    norm_num [c3curve]
  have hsome : recoveryDaysOf c3curve = some 2 := by
    rw [recoveryDaysOf, hpb, hre]
    norm_num [bdaysCount, List.range']
  have hmain := C3_recovery_time c3curve h1 h2 h3
  exact ⟨⟨h1, h2, h3⟩, hsome, (hmain.2.2 2 hsome).1, hmain.2.1⟩
